import Mathlib

/-!
# Verification of the `@fidm/asn1` DER codec

Shallow embedding of the TypeScript sources of the `fidm/asn1` repository
(`src/common.ts` and the main ASN.1 module) and proofs about them.

Conventions of the embedding:
* A Node.js `Buffer` is a `List Nat`, each entry one byte.  Out-of-range
  indexing (`buf[i]` yielding `undefined` in JS) only occurs in the sources
  after a bounds check, so `List.getD _ _ 0` is used for indexing.
* JavaScript numbers are `Nat`/`Int`; the 32-bit semantics of the bitwise
  shift operators are modelled explicitly where the sources use them on
  values that are not a priori below 2^31.
* `throw` is modelled with `Except Err`; each `Error` subclass / decorated
  error of the sources is one constructor of `Err`.
* Node's `Buffer.readUIntBE(offset, byteLength)` validates
  `1 <= byteLength <= 6` and the offset range, and throws `ERR_OUT_OF_RANGE`
  otherwise; this is modelled by the `rangeErr` error.
-/

namespace ASN1Spec

/-- Errors thrown (or returned) by the library.  `lengthErr` models the
decorated error thrown by `BufferVisitor.mustHas` (carrying the `available`
and `requested` fields), `syntaxErr` the plain `Error`s thrown by the
codec, `rangeErr` the `ERR_OUT_OF_RANGE` errors thrown by Node's
`Buffer.readUIntBE`/`readIntBE`, `validationErr` the `Error` objects
*returned* by `ASN1.validate` and thrown by `mustCompound`, and `fuelErr`
the artificial out-of-fuel result of the embedding (never reachable for
the fuel values used by the wrappers). -/
inductive Err where
  | lengthErr (message : String) (available : Nat) (requested : Nat)
  | syntaxErr (message : String)
  | rangeErr (message : String)
  | validationErr (message : String)
  | fuelErr
deriving DecidableEq, Repr

deriving instance DecidableEq for Except

@[simp] theorem bindOk {ε α β : Type} (a : α) (f : α → Except ε β) :
    (Except.ok a : Except ε α) >>= f = f a := rfl

@[simp] theorem bindError {ε α β : Type} (e : ε) (f : α → Except ε β) :
    (Except.error e : Except ε α) >>= f = .error e := rfl

/-- `BufferVisitor` state (src/common.ts): a `start`/`end` pair over a
byte buffer.  The JS field `end` is a reserved word in Lean and is named
`end_`. -/
structure BufferVisitor where
  buf : List Nat
  start : Nat
  end_ : Nat
deriving DecidableEq, Repr

namespace BufferVisitor

/-- `new BufferVisitor(buf, start = 0, end = 0)`:
`this.end = end > start ? end : start`. -/
def mk0 (buf : List Nat) (start : Nat := 0) (end_ : Nat := 0) : BufferVisitor :=
  { buf := buf, start := start, end_ := if end_ > start then end_ else start }

/-- `get length()`: the underlying buffer length. -/
def length (v : BufferVisitor) : Nat := v.buf.length

/-- `reset(start = 0, end = 0)`: sets `start`, then
`if (end >= this.start) this.end = end; else if (this.end < this.start)
this.end = this.start`. -/
def reset (v : BufferVisitor) (start : Nat := 0) (end_ : Nat := 0) : BufferVisitor :=
  { v with
    start := start
    end_ := if end_ ≥ start then end_ else if v.end_ < start then start else v.end_ }

/-- `walk(steps)`: `start = end; end += steps`. -/
def walk (v : BufferVisitor) (steps : Nat) : BufferVisitor :=
  { v with start := v.end_, end_ := v.end_ + steps }

/-- `mustHas(steps, message)`: throws a length error carrying
`available`/`requested` when `end + steps` exceeds the buffer length,
otherwise performs `walk(0)`. -/
def mustHas (v : BufferVisitor) (steps : Nat)
    (message : String := "Too few bytes to parse.") : Except Err BufferVisitor :=
  let requested := v.end_ + steps
  if requested > v.buf.length then
    .error (.lengthErr message v.buf.length requested)
  else
    .ok (v.walk 0)

/-- `mustWalk(steps, message)`: `mustHas` then `walk`. -/
def mustWalk (v : BufferVisitor) (steps : Nat)
    (message : String := "Too few bytes to parse.") : Except Err BufferVisitor := do
  let v ← v.mustHas steps message
  .ok (v.walk steps)

end BufferVisitor

/-- `buf.slice(start, end)` for `0 ≤ start`, on a byte list. -/
def jsSlice (buf : List Nat) (start end_ : Nat) : List Nat :=
  (buf.drop start).take (end_ - start)

/-- Big-endian accumulation of a byte list, the value computed by Node's
`readUIntBE` loop. -/
def beCombine (l : List Nat) : Nat :=
  l.foldl (fun acc b => acc * 256 + b) 0

/-- The `byteLength` big-endian bytes of `len` (lowest `8*byteLength` bits),
as written by Node's `buf.writeUIntBE(len, _, byteLength)`. -/
def beBytes : Nat → Nat → List Nat
  | 0, _ => []
  | k + 1, len => (len / 2 ^ (8 * k)) % 256 :: beBytes k len

/-- Node's `buf.readUIntBE(offset, byteLength)`: validates
`1 <= byteLength <= 6` and `offset + byteLength <= buf.length`
(`ERR_OUT_OF_RANGE` otherwise), then reads an unsigned big-endian value. -/
def readUIntBE (buf : List Nat) (offset byteLength : Nat) : Except Err Nat :=
  if byteLength < 1 ∨ 6 < byteLength then
    .error (.rangeErr "byteLength out of range")
  else if buf.length < offset + byteLength then
    .error (.rangeErr "offset out of range")
  else
    .ok (beCombine ((buf.drop offset).take byteLength))

/-- Node's `buf.readIntBE(offset, byteLength)`: as `readUIntBE` but the
result is interpreted as a signed (two's complement) value. -/
def readIntBE (buf : List Nat) (offset byteLength : Nat) : Except Err Int := do
  let u ← readUIntBE buf offset byteLength
  if u < 2 ^ (8 * byteLength - 1) then
    .ok (u : Int)
  else
    .ok ((u : Int) - 2 ^ (8 * byteLength))

/-- Node's `buf.writeIntBE(val, _, byteLength)`: writes the two's
complement big-endian bytes of `val`. -/
def writeIntBE (val : Int) (byteLength : Nat) : List Nat :=
  beBytes byteLength (val.emod (2 ^ (8 * byteLength))).toNat

theorem beBytes_length (k len : Nat) : (beBytes k len).length = k := by
  induction k generalizing len with
  | zero => rfl
  | succ k ih => simp [beBytes, ih]

theorem beBytes_lt (k len : Nat) : ∀ b ∈ beBytes k len, b < 256 := by
  induction k generalizing len with
  | zero => simp [beBytes]
  | succ k ih =>
    intro b hb
    rcases List.mem_cons.mp hb with h | h
    · subst h; exact Nat.mod_lt _ (by norm_num)
    · exact ih len b h

theorem beCombine_append_singleton (l : List Nat) (b : Nat) :
    beCombine (l ++ [b]) = beCombine l * 256 + b := by
  simp [beCombine, List.foldl_append]

theorem beBytes_foldl (k : Nat) :
    ∀ (m acc : Nat), (beBytes k m).foldl (fun a b => a * 256 + b) acc =
      acc * 2 ^ (8 * k) + m % 2 ^ (8 * k) := by
  induction k with
  | zero => intro m acc; simp [beBytes, Nat.mod_one]
  | succ k ih =>
    intro m acc
    rw [show 8 * (k + 1) = 8 * k + 8 by ring, pow_add]
    simp only [beBytes, List.foldl_cons, ih]
    rw [show (2 : Nat) ^ 8 = 256 by norm_num, Nat.mod_mul]
    ring

/-- Big-endian round trip: reading back the bytes written for `len`
recovers `len mod 2^(8k)`. -/
theorem beCombine_beBytes (k len : Nat) :
    beCombine (beBytes k len) = len % 2 ^ (8 * k) := by
  simp [beCombine, beBytes_foldl]

/-! ## JavaScript number semantics helpers

JS strings are modelled as `List Char`.  The bitwise operators of JS work
on 32-bit values; `toInt32` and the helpers below model this exactly. -/

/-- `ToInt32` of an integer-valued JS number. -/
def toInt32 (x : Int) : Int :=
  if x.emod 4294967296 ≥ 2147483648 then x.emod 4294967296 - 4294967296
  else x.emod 4294967296

/-- JS `x << n` (for `0 ≤ n < 32`): shift inside 32 bits, signed result. -/
def jsShl32 (x : Int) (n : Nat) : Int :=
  toInt32 (x * 2 ^ n)

/-- JS `x >>> n` (for `0 ≤ n < 32`): `ToUint32` then logical right shift. -/
def jsShrU32 (x : Int) (n : Nat) : Int :=
  x.emod 4294967296 / 2 ^ n

/-- JS `x & 0x7f` for an integer-valued JS number: low 7 bits of the
32-bit two's complement image, always in `[0, 128)`. -/
def jsAnd7f (x : Int) : Nat :=
  ((x.emod 4294967296) % 128).toNat

/-- Decimal digit character. -/
def decDigit (n : Nat) : Char := Char.ofNat (48 + n)

/-- Digit-count fuelled worker for `decRepr` (structural recursion so
that the kernel can evaluate it; the fuel is always sufficient). -/
def decReprAux : Nat → Nat → List Char
  | 0, _ => []
  | fuel + 1, n =>
    if n < 10 then [decDigit n]
    else decReprAux fuel (n / 10) ++ [decDigit (n % 10)]

/-- JS number-to-string conversion for a nonnegative integer-valued
number (decimal, no leading zeros). -/
def decRepr (n : Nat) : List Char :=
  decReprAux (n + 1) n

/-- JS number-to-string conversion for an integer-valued number. -/
def intRepr (i : Int) : List Char :=
  if i < 0 then '-' :: decRepr (-i).toNat else decRepr i.toNat

/-- JS `parseInt(str, 10)`: skip spaces, optional sign, then the longest
digit prefix; `NaN` (here `none`) when no digit is found.  Exact for the
integer ranges handled in this development. -/
def parseIntJS (s : List Char) : Option Int :=
  let s1 := s.dropWhile (fun c => c == ' ')
  let (sign, s2) : Int × List Char :=
    match s1 with
    | '-' :: r => (-1, r)
    | '+' :: r => (1, r)
    | _ => (1, s1)
  let ds := s2.takeWhile (fun c => 48 ≤ c.toNat && c.toNat ≤ 57)
  if ds.isEmpty then none
  else some (sign * (ds.foldl (fun acc c => acc * 10 + ((c.toNat - 48 : Nat) : Int)) 0))

/-- `mustParseInt(str, 10)` from the main module: `parseInt` that throws
on `NaN`. -/
def mustParseInt (s : List Char) : Except Err Int :=
  match parseIntJS s with
  | none => .error (.syntaxErr "Invalid numeric string")
  | some v => .ok v

/-- One step of `split('.')`: prepend character `c` to a split result. -/
def splitDotCons (c : Char) : List (List Char) → List (List Char)
  | [] => [[c]]
  | p :: ps => if c = '.' then [] :: p :: ps else (c :: p) :: ps

/-- `str.split('.')` on a JS string. -/
def splitDot : List Char → List (List Char)
  | [] => [[]]
  | c :: rest => splitDotCons c (splitDot rest)

/-- Joining string parts with `'.'`, the shape of a dotted-decimal OID
string. -/
def dotJoin : List (List Char) → List Char
  | [] => []
  | [p] => p
  | p :: ps => p ++ '.' :: dotJoin ps

/-- One byte as two lowercase hex digits (`buf.toString('hex')`). -/
def hexDigit (n : Nat) : Char :=
  if n < 10 then Char.ofNat (48 + n) else Char.ofNat (87 + n)

/-- `buf.toString('hex')` on a byte list. -/
def hexStr (buf : List Nat) : List Char :=
  buf.flatMap (fun b => [hexDigit (b / 16), hexDigit (b % 16)])

/-! ## `BitString` (main module) -/

/-- The `BitString` class: a byte buffer and the number of valid bits. -/
structure BitString where
  buf : List Nat
  bitLen : Nat
deriving DecidableEq, Repr

/-! ## Per-type value codecs (static methods of class `ASN1`)

The decoded value of an `INTEGER` node: a native number for width at most
6 bytes, a hex string beyond. -/

inductive IntOrStr where
  | num (i : Int)
  | str (s : List Char)
deriving DecidableEq, Repr

/-- `ASN1.parseBool`. -/
def parseBool (buf : List Nat) : Except Err Bool :=
  if buf.length ≠ 1 then .error (.syntaxErr "ASN1 syntax error: invalid boolean")
  else if buf.getD 0 0 = 0 then .ok false
  else if buf.getD 0 0 = 0xff then .ok true
  else .error (.syntaxErr "ASN1 syntax error: invalid boolean")

/-- `ASN1.Integer` on a number argument: returns the value bytes of the
created node (class `UNIVERSAL`, tag `INTEGER`).  `Number.isSafeInteger`
bounds the argument by `2^53 - 1` in magnitude. -/
def integerBytes (val : Int) : Except Err (List Nat) :=
  if val < -(9007199254740991 : Int) ∨ (9007199254740991 : Int) < val then
    .error (.syntaxErr "ASN1 syntax error: invalid integer")
  else if -0x80 ≤ val ∧ val < 0x80 then .ok (writeIntBE val 1)
  else if -0x8000 ≤ val ∧ val < 0x8000 then .ok (writeIntBE val 2)
  else if -0x800000 ≤ val ∧ val < 0x800000 then .ok (writeIntBE val 3)
  else if -0x80000000 ≤ val ∧ val < 0x80000000 then .ok (writeIntBE val 4)
  else if -0x8000000000 ≤ val ∧ val < 0x8000000000 then .ok (writeIntBE val 5)
  else if -0x800000000000 ≤ val ∧ val < 0x800000000000 then .ok (writeIntBE val 6)
  else .error (.syntaxErr "ASN1 syntax error: invalid Integer")

/-- `ASN1.parseInteger`: at most 6 bytes decode as a signed big-endian
number, more decode as the hex string. -/
def parseInteger (buf : List Nat) : Except Err IntOrStr :=
  if buf.length = 0 then .error (.syntaxErr "ASN1 syntax error: invalid Integer")
  else if buf.length > 6 then .ok (.str (hexStr buf))
  else do
    let v ← readIntBE buf 0 buf.length
    .ok (.num v)

/-- `ASN1.parseBitString`. -/
def parseBitString (buf : List Nat) : Except Err BitString :=
  if buf.length = 0 then .error (.syntaxErr "ASN1 syntax error: invalid BitString")
  else if buf.getD 0 0 > 7 ∨ (buf.length = 1 ∧ buf.getD 0 0 > 0) ∨
      (buf.getD (buf.length - 1) 0) &&& ((1 <<< buf.getD 0 0) - 1) ≠ 0 then
    .error (.syntaxErr "ASN1 syntax error: invalid padding bits in BIT STRING")
  else
    .ok ⟨buf.drop 1, (buf.length - 1) * 8 - buf.getD 0 0⟩

/-- `ASN1.parseNull`. -/
def parseNull (buf : List Nat) : Except Err Unit :=
  if buf.length ≠ 0 then .error (.syntaxErr "ASN1 syntax error: invalid null")
  else .ok ()

/-- Fuelled worker for `arcHeadBytes` (structural recursion so that the
kernel can evaluate it; the fuel is always sufficient since each step
divides the value by 128). -/
def arcHeadBytesAux : Nat → Int → List Nat
  | 0, _ => []
  | fuel + 1, value =>
    if value > 127 then
      arcHeadBytesAux fuel (jsShrU32 value 7) ++ [jsAnd7f (jsShrU32 value 7) ||| 128]
    else []

/-- The continuation bytes (`unshift`ed, high bit set) produced by the
encoding loop of `ASN1.OID` for one arc value. -/
def arcHeadBytes (value : Int) : List Nat :=
  arcHeadBytesAux (value.toNat + 1) value

/-- The base-128 encoding of one arc (arc index ≥ 2) of `ASN1.OID`:
`value & 0x7f` pushed, then the continuation bytes unshifted in front
while the value exceeds `0x7f`. -/
def encodeArc (value : Int) : List Nat :=
  arcHeadBytes value ++ [jsAnd7f value]

/-- The `for (let i = 2; i < values.length; ++i)` loop of `ASN1.OID`:
parse each remaining arc and append its base-128 bytes. -/
def oidArcsBytes : List (List Char) → Except Err (List Nat)
  | [] => .ok []
  | s :: rest => do
    let v ← mustParseInt s
    let b ← oidArcsBytes rest
    .ok (encodeArc v ++ b)

/-- `ASN1.OID`: value bytes of the created node.  `Buffer.from` reduces
every entry modulo 256 (`ToUint8`); the first entry is
`40 * arc1 + arc2`, the continuation entries are already below 256. -/
def oidBytes (val : List Char) : Except Err (List Nat) := do
  let values := splitDot val
  if values.length = 0 then
    .error (.syntaxErr "ASN1 syntax error: invalid Object Identifier")
  else do
    let a1 ← mustParseInt (values.getD 0 [])
    let a2 ← mustParseInt (values.getD 1 [])
    let restBytes ← oidArcsBytes (values.drop 2)
    .ok (((40 * a1 + a2).emod 256).toNat :: restBytes)

/-- The decoding loop of `ASN1.parseOID` over the bytes after the first:
a byte `≥ 0x80` accumulates into `high` (with the 32-bit shift of JS),
any other byte terminates one arc. -/
def parseOIDLoop : List Nat → Int → List Char → List Char
  | [], _, oid => oid
  | b :: rest, high, oid =>
    if b ≥ 0x80 then
      parseOIDLoop rest (jsShl32 (high + ((b &&& 0x7f : Nat) : Int)) 7) oid
    else
      parseOIDLoop rest 0 (oid ++ '.' :: intRepr (high + (b : Int)))

/-- `ASN1.parseOID`. -/
def parseOID (buf : List Nat) : Except Err (List Char) :=
  if buf.length = 0 then .error (.syntaxErr "ASN1 syntax error: invalid OID")
  else
    .ok (parseOIDLoop (buf.drop 1) 0
      (decRepr (buf.getD 0 0 / 40) ++ '.' :: decRepr (buf.getD 0 0 % 40)))

/-! ## The `ASN1` node type and the TLV codec -/

mutual
/-- The `ASN1` class: `class`, `tag`, value `bytes`, the `isCompound`
flag, and the two memoized caches `_value` (decoded value) and `_der`
(canonical encoding).  `class` is a reserved word in Lean and is named
`cls`. -/
inductive ASN1 where
  | mk (cls : Nat) (tag : Nat) (bytes : List Nat) (isCompound : Bool)
       (value_ : Option AVal) (der_ : Option (List Nat))

/-- The dynamically typed decoded value stored in `_value`. -/
inductive AVal where
  | vBool (b : Bool)
  | vNum (i : IntOrStr)
  | vStr (s : List Char)
  | vBits (bs : BitString)
  | vNull
  | vBytes (b : List Nat)
  | vArr (l : List ASN1)
  | vObj (a : ASN1)
end

namespace ASN1

def cls : ASN1 → Nat | .mk c _ _ _ _ _ => c
def tag : ASN1 → Nat | .mk _ t _ _ _ _ => t
def bytes : ASN1 → List Nat | .mk _ _ b _ _ _ => b
def isCompound : ASN1 → Bool | .mk _ _ _ i _ _ => i
def value_ : ASN1 → Option AVal | .mk _ _ _ _ v _ => v
def der_ : ASN1 → Option (List Nat) | .mk _ _ _ _ _ d => d

end ASN1

/-- The `ASN1` constructor: `isCompound` is forced for the `SEQUENCE`
(16) and `SET` (17) tags; the caches start unset. -/
def mkASN1 (tagClass : Nat) (tag : Nat) (data : List Nat)
    (isCompound : Bool := false) : ASN1 :=
  .mk tagClass tag data (isCompound || tag == 16 || tag == 17) none none

@[simp] theorem mkASN1_cls (c t : Nat) (d : List Nat) (i : Bool) :
    (mkASN1 c t d i).cls = c := rfl
@[simp] theorem mkASN1_tag (c t : Nat) (d : List Nat) (i : Bool) :
    (mkASN1 c t d i).tag = t := rfl
@[simp] theorem mkASN1_bytes (c t : Nat) (d : List Nat) (i : Bool) :
    (mkASN1 c t d i).bytes = d := rfl
@[simp] theorem mkASN1_isCompound (c t : Nat) (d : List Nat) (i : Bool) :
    (mkASN1 c t d i).isCompound = (i || t == 16 || t == 17) := rfl

/-- `getValueLengthByte`: number of extra length octets for a value
length (0 means short form); lengths of 2^48 and beyond are invalid. -/
def getValueLengthByte (valueLen : Nat) : Except Err Nat :=
  if valueLen ≤ 127 then .ok 0
  else if valueLen ≤ 0xff then .ok 1
  else if valueLen ≤ 0xffff then .ok 2
  else if valueLen ≤ 0xffffff then .ok 3
  else if valueLen ≤ 0xffffffff then .ok 4
  else if valueLen ≤ 0xffffffffff then .ok 5
  else if valueLen ≤ 0xffffffffffff then .ok 6
  else .error (.syntaxErr "invalid value length")

/-- `getValueLength`: reads the length octet(s) of one TLV node through
the visitor.  A clear high bit is the short form; otherwise the low 7
bits count the following big-endian length octets, read with Node's
`readUIntBE` (whose `byteLength` range check is what a count of 0 — the
formal BER indefinite length octet 0x80 — or a count above 6 runs into). -/
def getValueLength (bufv : BufferVisitor) : Except Err (BufferVisitor × Nat) := do
  let bufv ← bufv.mustWalk 1 "Too few bytes to read ASN.1 value length."
  let byte := bufv.buf.getD bufv.start 0
  if byte &&& 0x80 = 0 then
    .ok (bufv, byte)
  else do
    let byteLen := byte &&& 0x7f
    let bufv ← bufv.mustWalk byteLen "Too few bytes to read ASN.1 value length."
    let len ← readUIntBE bufv.buf bufv.start byteLen
    .ok (bufv, len)

/-- `toDER`: identifier octet (class, tag, constructed bit), minimal
length encoding, value octets. -/
def toDER (a : ASN1) : Except Err (List Nat) := do
  let b1 := a.cls ||| a.tag ||| (if a.isCompound then 0x20 else 0)
  let valueLenBytes ← getValueLengthByte a.bytes.length
  if valueLenBytes = 0 then
    .ok (b1 :: a.bytes.length :: a.bytes)
  else
    .ok (b1 :: (valueLenBytes ||| 0x80) :: (beBytes valueLenBytes a.bytes.length ++ a.bytes))

mutual

/-- `ASN1._fromDER`: decodes one node through the visitor.  The first
argument is recursion fuel for the (terminating) recursion of the JS
sources; every wrapper passes enough fuel. -/
def fromDERAux : Nat → BufferVisitor → Bool → Except Err (BufferVisitor × ASN1)
  | 0, _, _ => .error .fuelErr
  | fuel + 1, bufv, deepParse =>
    if bufv.buf.length = 0 then
      .error (.syntaxErr "ASN1 syntax error: invalid Generalized Time")
    else do
      let bufv ← bufv.mustWalk 1 "Too few bytes to read ASN.1 tag."
      let start := bufv.start
      let b1 := bufv.buf.getD start 0
      let tagClass := b1 &&& 0xc0
      let tag := b1 &&& 0x1f
      let (bufv, valueLen) ← getValueLength bufv
      let bufv ← bufv.mustHas valueLen
      if valueLen ≠ 0 ∧ tag = 5 then
        .error (.syntaxErr "invalid value length or NULL tag.")
      else do
        let bufv ← bufv.mustWalk valueLen
        let isCompound := b1 &&& 0x20 = 0x20
        let asn1 := mkASN1 tagClass tag (jsSlice bufv.buf bufv.start bufv.end_) isCompound
        let asn1 ←
          if asn1.isCompound ∧ deepParse then do
            let l ← parseCompoundAux fuel asn1.bytes deepParse
            pure (ASN1.mk asn1.cls asn1.tag asn1.bytes asn1.isCompound (some (.vArr l)) none)
          else
            pure asn1
        let asn1 := ASN1.mk asn1.cls asn1.tag asn1.bytes asn1.isCompound asn1.value_
          (some (jsSlice bufv.buf start bufv.end_))
        .ok (bufv, asn1)

/-- `ASN1._parseCompound`: decodes the concatenated sibling nodes filling
a compound node's value octets. -/
def parseCompoundAux : Nat → List Nat → Bool → Except Err (List ASN1)
  | 0, _, _ => .error .fuelErr
  | fuel + 1, buf, deepParse =>
    parseCompoundLoop fuel (BufferVisitor.mk0 buf) buf.length 0 deepParse []

/-- The `while (readByteLen < len)` loop of `ASN1._parseCompound`. -/
def parseCompoundLoop : Nat → BufferVisitor → Nat → Nat → Bool → List ASN1 →
    Except Err (List ASN1)
  | 0, _, _, _, _, _ => .error .fuelErr
  | fuel + 1, bufv, len, readByteLen, deepParse, values =>
    if readByteLen < len then do
      let start := bufv.end_
      let (bufv', a) ← fromDERAux fuel bufv deepParse
      parseCompoundLoop fuel bufv' len (readByteLen + (bufv'.end_ - start)) deepParse
        (values ++ [a])
    else
      .ok values

end

/-- `ASN1.fromDER(buf, deepParse = false)`. -/
def fromDER (buf : List Nat) (deepParse : Bool := false) : Except Err ASN1 := do
  let (_, a) ← fromDERAux (buf.length + 3) (BufferVisitor.mk0 buf) deepParse
  .ok a

/-- The error thrown by `ASN1.parseDER` on a class/tag mismatch. -/
def mismatchErr (tagClass tag : Nat) : Err :=
  .syntaxErr ("invalid ASN.1 DER for class " ++ toString tagClass ++ " and tag " ++ toString tag)

/-- `ASN1.parseDER(buf, tagClass, tag)`: decodes one node (shallow) and
throws when `obj.class !== tagClass && obj.tag !== tag`. -/
def parseDER (buf : List Nat) (tagClass : Nat) (tag : Nat) : Except Err ASN1 := do
  let obj ← fromDER buf false
  if obj.cls ≠ tagClass ∧ obj.tag ≠ tag then
    .error (mismatchErr tagClass tag)
  else
    .ok obj

/-! ## Templates and `ASN1.validate` -/

/-- The `tag` field of a `Template`: `Tag | Tag[]`. -/
inductive TagField where
  | one (t : Nat)
  | many (l : List Nat)
deriving DecidableEq, Repr

mutual
/-- The `Template` interface: `name`, `class` (named `cls`), `tag`,
`optional` (absent = `false`), `capture`, `value`. -/
inductive Template where
  | mk (name : String) (cls : Nat) (tag : TagField) (optional : Bool)
       (capture : Option String) (value : TplVal)

/-- The `value` field of a `Template`: absent, a single nested template,
or a sequence of child templates. -/
inductive TplVal where
  | nothing
  | single (t : Template)
  | seq (l : List Template)
end

namespace Template

def name : Template → String | .mk n _ _ _ _ _ => n
def cls : Template → Nat | .mk _ c _ _ _ _ => c
def tag : Template → TagField | .mk _ _ t _ _ _ => t
def optional : Template → Bool | .mk _ _ _ o _ _ => o
def capture : Template → Option String | .mk _ _ _ _ c _ => c
def value : Template → TplVal | .mk _ _ _ _ _ v => v

end Template

/-- A `Captures` object: a string-keyed map of captured nodes. -/
abbrev Captures := List (String × ASN1)

/-- `captures[key] = node`: JS property assignment (replace or append). -/
def setCapture : Captures → String → ASN1 → Captures
  | [], k, a => [(k, a)]
  | (k', v) :: rest, k, a =>
    if k' = k then (k, a) :: rest else (k', v) :: setCapture rest k a

/-- The names of the `Class` enum (`Class[this.class]` in an error
message; a non-member yields `undefined`). -/
def className (c : Nat) : String :=
  if c = 0x00 then "UNIVERSAL"
  else if c = 0x40 then "APPLICATION"
  else if c = 0x80 then "CONTEXT_SPECIFIC"
  else if c = 0xC0 then "PRIVATE"
  else "undefined"

/-- The names of the `Tag` enum (`Tag[this.tag]` in an error message). -/
def tagName (t : Nat) : String :=
  if t = 0 then "NONE" else if t = 1 then "BOOLEAN" else if t = 2 then "INTEGER"
  else if t = 3 then "BITSTRING" else if t = 4 then "OCTETSTRING"
  else if t = 5 then "NULL" else if t = 6 then "OID" else if t = 10 then "ENUMERATED"
  else if t = 12 then "UTF8" else if t = 16 then "SEQUENCE" else if t = 17 then "SET"
  else if t = 18 then "NUMERICSTRING" else if t = 19 then "PRINTABLESTRING"
  else if t = 20 then "T61STRING" else if t = 22 then "IA5STRING"
  else if t = 23 then "UTCTIME" else if t = 24 then "GENERALIZEDTIME"
  else if t = 27 then "GENERALSTRING" else "undefined"

/-- `mustCompound(msg)`: throws `msg` unless the node is compound and its
(memoized) `value` is an array of child nodes.  The `value` getter runs
`valueOf` when the cache is unset; after the `isCompound` short circuit
the only reachable branch of `valueOf` is
`ASN1._parseCompound(this.bytes, false)`, inlined here. -/
def mustCompound (a : ASN1) (msg : String) : Except Err (List ASN1) :=
  if ¬ a.isCompound then .error (.validationErr msg)
  else
    match a.value_ with
    | some (.vArr l) => .ok l
    | some _ => .error (.validationErr msg)
    | none => parseCompoundAux (a.bytes.length + 3) a.bytes false

mutual

/-- `ASN1.validate(tpl, captures)`: returns `.ok (some err, captures)`
for a JS `return err`, `.ok (none, captures)` for a JS `return null`,
and `.error e` for a thrown error (from `mustCompound` or a nested
`fromDER`). -/
def validate (a : ASN1) (tpl : Template) (caps : Captures) :
    Except Err (Option Err × Captures) :=
  match tpl with
  | .mk tname tcls ttag _topt tcap tval =>
    if a.cls ≠ tcls then
      .ok (some (.validationErr ("ASN.1 object validate failure for " ++ tname ++
        " : error class " ++ className a.cls)), caps)
    else
      let tplTags := match ttag with | .one t => [t] | .many l => l
      if ¬ tplTags.contains a.tag then
        .ok (some (.validationErr ("ASN.1 object validate failure for " ++ tname ++
          ": error tag " ++ tagName a.tag)), caps)
      else
        let caps := match tcap with
          | some k => setCapture caps k a
          | none => caps
        match tval with
        | .seq tvs => do
          let values ← mustCompound a (tname ++ " need compound ASN1 value")
          validateChildren values tvs 0 caps
        | .single tv => do
          let buf := if a.tag = 3 then a.bytes.drop 1 else a.bytes
          let nd ← fromDER buf false
          validate nd tv caps
        | .nothing => .ok (none, caps)
termination_by sizeOf tpl
decreasing_by all_goals (simp_wf; try omega)

/-- The `for (let i = 0, j = 0; i < tpl.value.length; i++)` loop of
`ASN1.validate`: `i` walks the child templates (structurally here), `j`
indexes the child nodes. -/
def validateChildren (values : List ASN1) (tvs : List Template) (j : Nat)
    (caps : Captures) : Except Err (Option Err × Captures) :=
  match tvs with
  | [] => .ok (none, caps)
  | tv :: rest =>
    match values[j]? with
    | some v => do
      let (err, caps') ← validate v tv caps
      match err with
      | none => validateChildren values rest (j + 1) caps'
      | some e =>
        if tv.optional then validateChildren values rest j caps'
        else .ok (some e, caps')
    | none =>
      if tv.optional then validateChildren values rest j caps
      else
        .ok (some (.validationErr ("ASN.1 object validate failure for " ++ tv.name ++
          ": not exists")), caps)
termination_by sizeOf tvs
decreasing_by all_goals (simp_wf; try omega)

end

/-- The sequence-matching walk as the specification words it: the
children and the template list are walked in lock-step with two
independent cursors — a child that matches the current template advances
both cursors; a child that does not match an optional template advances
only the template cursor (the child is retried against the next
template); a child that does not match a required template fails
immediately with that error; if the children are exhausted while a
required template remains, the result is a "not exists" error naming
that template; remaining optional templates with no children are
silently satisfied and the walk returns null. -/
def lockStepSpec (values : List ASN1) (tvs : List Template) (caps : Captures) :
    Except Err (Option Err × Captures) :=
  match tvs, values with
  | [], _ => .ok (none, caps)
  | tv :: rest, [] =>
    if tv.optional then lockStepSpec [] rest caps
    else
      .ok (some (.validationErr ("ASN.1 object validate failure for " ++ tv.name ++
        ": not exists")), caps)
  | tv :: rest, v :: vs => do
    let (err, caps') ← validate v tv caps
    match err with
    | none => lockStepSpec vs rest caps'
    | some e =>
      if tv.optional then lockStepSpec (v :: vs) rest caps'
      else .ok (some e, caps')

/-- `ASN1.parseDERWithTemplate(buf, tpl)`: deep decode then validate; a
returned validation error is thrown (decorated with the node). -/
def parseDERWithTemplate (buf : List Nat) (tpl : Template) : Except Err Captures := do
  let obj ← fromDER buf true
  let (err, captures) ← validate obj tpl []
  match err with
  | some e => .error e
  | none => .ok captures

/-! ## Claim theorems -/

/-- Helper: `mustHas` in explicit form. -/
theorem mustHas_eq (v : BufferVisitor) (n : Nat) (msg : String) :
    v.mustHas n msg =
      if v.end_ + n > v.buf.length then
        .error (.lengthErr msg v.buf.length (v.end_ + n))
      else
        .ok ⟨v.buf, v.end_, v.end_⟩ := by
  simp [BufferVisitor.mustHas, BufferVisitor.walk]

/-- Helper: `mustWalk` in explicit form. -/
theorem mustWalk_eq (v : BufferVisitor) (n : Nat) (msg : String) :
    v.mustWalk n msg =
      if v.end_ + n > v.buf.length then
        .error (.lengthErr msg v.buf.length (v.end_ + n))
      else
        .ok ⟨v.buf, v.end_, v.end_ + n⟩ := by
  simp only [BufferVisitor.mustWalk, mustHas_eq]
  split
  · rfl
  · rfl

/-- C9: the window invariant `end ≥ start` holds after construction with
any arguments, and is preserved by `reset` (with arbitrary, including
inverted, arguments), by `walk`, by `mustHas` and by `mustWalk`. -/
theorem bufferVisitor_window_invariant :
    (∀ (buf : List Nat) (s e : Nat),
      (BufferVisitor.mk0 buf s e).start ≤ (BufferVisitor.mk0 buf s e).end_) ∧
    (∀ (v : BufferVisitor) (s e : Nat), v.start ≤ v.end_ →
      (v.reset s e).start ≤ (v.reset s e).end_) ∧
    (∀ (v : BufferVisitor) (n : Nat), v.start ≤ v.end_ →
      (v.walk n).start ≤ (v.walk n).end_) ∧
    (∀ (v v' : BufferVisitor) (n : Nat) (msg : String), v.start ≤ v.end_ →
      v.mustHas n msg = .ok v' → v'.start ≤ v'.end_) ∧
    (∀ (v v' : BufferVisitor) (n : Nat) (msg : String), v.start ≤ v.end_ →
      v.mustWalk n msg = .ok v' → v'.start ≤ v'.end_) := by
  refine ⟨?_, ?_, ?_, ?_, ?_⟩
  · intro buf s e
    simp only [BufferVisitor.mk0]
    split <;> omega
  · intro v s e _h
    simp only [BufferVisitor.reset]
    split
    · omega
    · split <;> omega
  · intro v n _h
    simp [BufferVisitor.walk]
  · intro v v' n msg _h hok
    rw [mustHas_eq] at hok
    split at hok
    · cases hok
    · cases hok; simp
  · intro v v' n msg _h hok
    rw [mustWalk_eq] at hok
    split at hok
    · cases hok
    · cases hok; simp

/-- C9 witness: the invariant theorem applied at concrete inputs, one
per operation. -/
theorem bufferVisitor_window_invariant_witness :
    ((BufferVisitor.mk0 [0, 0] 5 2).start ≤ (BufferVisitor.mk0 [0, 0] 5 2).end_) ∧
    (((BufferVisitor.mk0 [0, 0, 0] 0 2).reset 7 3).start ≤
      ((BufferVisitor.mk0 [0, 0, 0] 0 2).reset 7 3).end_) ∧
    (((BufferVisitor.mk0 [0, 0, 0] 0 2).walk 1).start ≤
      ((BufferVisitor.mk0 [0, 0, 0] 0 2).walk 1).end_) ∧
    ((⟨[0, 0, 0], 1, 1⟩ : BufferVisitor).start ≤ (⟨[0, 0, 0], 1, 1⟩ : BufferVisitor).end_) ∧
    ((⟨[0, 0, 0], 1, 2⟩ : BufferVisitor).start ≤ (⟨[0, 0, 0], 1, 2⟩ : BufferVisitor).end_) :=
  ⟨bufferVisitor_window_invariant.1 [0, 0] 5 2,
   bufferVisitor_window_invariant.2.1 ((BufferVisitor.mk0 [0, 0, 0] 0 2)) 7 3 (by decide),
   bufferVisitor_window_invariant.2.2.1 ((BufferVisitor.mk0 [0, 0, 0] 0 2)) 1 (by decide),
   bufferVisitor_window_invariant.2.2.2.1 (BufferVisitor.mk0 [0, 0, 0] 0 1) ⟨[0, 0, 0], 1, 1⟩
     2 "m" (by decide) (by decide),
   bufferVisitor_window_invariant.2.2.2.2 (BufferVisitor.mk0 [0, 0, 0] 0 1) ⟨[0, 0, 0], 1, 2⟩
     1 "m" (by decide) (by decide)⟩

/-- C8 (amended): `mustHas(n)` throws iff `end + n` exceeds the buffer
length, the thrown error carries `available` = buffer length and
`requested` = `end + n`; when it does not throw it performs `walk(0)`,
i.e. it sets `start := end` and leaves `end` and the buffer unchanged
(it is *not* a no-op on the observable state when `start ≠ end`). -/
theorem mustHas_contract (v : BufferVisitor) (n : Nat) (msg : String) :
    (v.end_ + n > v.buf.length →
      v.mustHas n msg = .error (.lengthErr msg v.buf.length (v.end_ + n))) ∧
    (v.end_ + n ≤ v.buf.length →
      v.mustHas n msg = .ok ⟨v.buf, v.end_, v.end_⟩) ∧
    (∀ e a r, v.mustHas n msg = .error (.lengthErr e a r) →
      a = v.buf.length ∧ r = v.end_ + n ∧ v.end_ + n > v.buf.length) := by
  refine ⟨?_, ?_, ?_⟩
  · intro h; rw [mustHas_eq, if_pos h]
  · intro h; rw [mustHas_eq, if_neg (by omega)]
  · intro e a r h
    rw [mustHas_eq] at h
    split at h
    · cases h; omega
    · cases h

/-- C8 witness: `mustHas` at concrete inputs, in both regimes. -/
theorem mustHas_contract_witness :
    ((⟨[0, 0], 0, 1⟩ : BufferVisitor).mustHas 2 "m" =
      .error (.lengthErr "m" 2 3)) ∧
    ((⟨[0, 0], 0, 1⟩ : BufferVisitor).mustHas 1 "m" = .ok ⟨[0, 0], 1, 1⟩) ∧
    ((2 : Nat) = 2 ∧ (3 : Nat) = 1 + 2 ∧ 1 + 2 > 2) :=
  ⟨(mustHas_contract ⟨[0, 0], 0, 1⟩ 2 "m").1 (by decide),
   (mustHas_contract ⟨[0, 0], 0, 1⟩ 1 "m").2.1 (by decide),
   (mustHas_contract ⟨[0, 0], 0, 1⟩ 2 "m").2.2 "m" 2 3 (by decide)⟩

/-- C8 counterexample: on success `mustHas` is *not* a no-op — with
`start = 0`, `end = 1` the call `mustHas(1)` succeeds but moves `start`
to 1, changing the observable state. -/
theorem mustHas_not_noop :
    (⟨[0, 0], 0, 1⟩ : BufferVisitor).mustHas 1 "Too few bytes to parse." =
        .ok ⟨[0, 0], 1, 1⟩ ∧
      (⟨[0, 0], 1, 1⟩ : BufferVisitor) ≠ ⟨[0, 0], 0, 1⟩ := by
  decide

/-- C5: `parseBitString` fails exactly on an empty buffer, a padding
count above 7, a single-octet buffer with nonzero padding, or nonzero
low `buf[0]` bits in the final byte; on success it returns the buffer
without the leading octet and bit length `(len - 1) * 8 - padding`. -/
theorem parseBitString_contract (buf : List Nat) :
    ((∃ e, parseBitString buf = .error e) ↔
      (buf = [] ∨ buf.getD 0 0 > 7 ∨ (buf.length = 1 ∧ buf.getD 0 0 > 0) ∨
        buf.getD (buf.length - 1) 0 % 2 ^ (buf.getD 0 0) ≠ 0)) ∧
    (∀ bs, parseBitString buf = .ok bs →
      bs.buf = buf.drop 1 ∧ bs.bitLen = (buf.length - 1) * 8 - buf.getD 0 0) := by
  have hmask : ∀ x p : Nat, x &&& (1 <<< p - 1) = x % 2 ^ p := by
    intro x p
    rw [Nat.one_shiftLeft, Nat.and_pow_two_sub_one_eq_mod]
  constructor
  · constructor
    · rintro ⟨e, he⟩
      by_contra hcon
      push_neg at hcon
      obtain ⟨h1, h2, h3, h4⟩ := hcon
      rw [parseBitString, if_neg (by simpa using h1)] at he
      rw [if_neg] at he
      · cases he
      · push_neg
        refine ⟨by omega, ?_, ?_⟩
        · intro hlen; omega
        · rw [hmask]; exact h4
    · intro h
      rw [parseBitString]
      rcases h with h | h | h | h
      · rw [if_pos (by simp [h])]; exact ⟨_, rfl⟩
      · split
        · exact ⟨_, rfl⟩
        · rw [if_pos (Or.inl h)]; exact ⟨_, rfl⟩
      · split
        · exact ⟨_, rfl⟩
        · rw [if_pos (Or.inr (Or.inl h))]; exact ⟨_, rfl⟩
      · split
        · exact ⟨_, rfl⟩
        · rw [if_pos (Or.inr (Or.inr (by rw [hmask]; exact h)))]; exact ⟨_, rfl⟩
  · intro bs hok
    rw [parseBitString] at hok
    split at hok
    · cases hok
    · split at hok
      · cases hok
      · cases hok; exact ⟨rfl, rfl⟩

/-- C5 witness: a BIT STRING content with 6 padding bits decodes to the
expected buffer and bit length. -/
theorem parseBitString_contract_witness :
    (⟨[0x6e, 0x5d, 0xc0], 18⟩ : BitString).buf = [6, 0x6e, 0x5d, 0xc0].drop 1 ∧
      (⟨[0x6e, 0x5d, 0xc0], 18⟩ : BitString).bitLen =
        ([6, 0x6e, 0x5d, 0xc0].length - 1) * 8 - [6, 0x6e, 0x5d, 0xc0].getD 0 0 :=
  (parseBitString_contract [6, 0x6e, 0x5d, 0xc0]).2 ⟨[0x6e, 0x5d, 0xc0], 18⟩ (by rfl)

/-- C3: `parseDER` throws the class/tag-mismatch error iff *both* the
decoded class differs from the expected class *and* the decoded tag
differs from the expected tag; when either one matches, the decoded node
is returned. -/
theorem parseDER_lenient (buf : List Nat) (tagClass tag : Nat) (obj : ASN1)
    (hdec : fromDER buf false = .ok obj) :
    (parseDER buf tagClass tag = .error (mismatchErr tagClass tag) ↔
      (obj.cls ≠ tagClass ∧ obj.tag ≠ tag)) ∧
    ((obj.cls = tagClass ∨ obj.tag = tag) → parseDER buf tagClass tag = .ok obj) := by
  constructor
  · constructor
    · intro h
      by_contra hcon
      rw [parseDER, hdec] at h
      simp only [bindOk] at h
      rw [if_neg hcon] at h
      cases h
    · intro h
      rw [parseDER, hdec]
      simp only [bindOk]
      rw [if_pos h]
  · intro h
    rw [parseDER, hdec]
    simp only [bindOk]
    rw [if_neg (by tauto)]

/-- C3 witness: an `INTEGER 5` buffer parsed with the wrong class but
the right tag is accepted (leniency), and with both wrong is rejected. -/
theorem parseDER_lenient_witness :
    ((ASN1.mk 0 2 [5] false none (some [2, 1, 5]) : ASN1).cls = 0x80 ∨
        (ASN1.mk 0 2 [5] false none (some [2, 1, 5]) : ASN1).tag = 2) ∧
      parseDER [2, 1, 5] 0x80 2 = .ok (ASN1.mk 0 2 [5] false none (some [2, 1, 5])) ∧
      parseDER [2, 1, 5] 0x80 6 = .error (mismatchErr 0x80 6) :=
  ⟨Or.inr rfl,
   (parseDER_lenient [2, 1, 5] 0x80 2 (ASN1.mk 0 2 [5] false none (some [2, 1, 5]))
      (by rfl)).2 (Or.inr rfl),
   ((parseDER_lenient [2, 1, 5] 0x80 6 (ASN1.mk 0 2 [5] false none (some [2, 1, 5]))
      (by rfl)).1).2 ⟨by decide, by decide⟩⟩

@[simp] theorem mk0_eq (buf : List Nat) : BufferVisitor.mk0 buf = ⟨buf, 0, 0⟩ := rfl

/-- C7 counterexample: a buffer whose single length octet is `0x80` does
*not* decode to a node with zero-length value bytes — the decode fails
(the zero count of subsequent length octets reaches Node's `readUIntBE`
with `byteLength = 0`, which is out of its accepted range). -/
theorem fromDER_indefinite_is_error :
    fromDER [0x04, 0x80] false = .error (.rangeErr "byteLength out of range") ∧
      ∀ a : ASN1, fromDER [0x04, 0x80] false ≠ .ok a := by
  constructor
  · rfl
  · intro a h
    rw [show fromDER [0x04, 0x80] false =
      .error (.rangeErr "byteLength out of range") from rfl] at h
    cases h

/-- C7 (amended): for every buffer whose length octet is exactly `0x80`
(long form, count 0), `ASN1.fromDER` throws: the length is not treated
as 0 and no node is produced, because the zero-octet count is passed to
`readUIntBE` as `byteLength`, outside its accepted range `1..6`. -/
theorem fromDER_indefinite_throws (b : Nat) (rest : List Nat) :
    fromDER (b :: 0x80 :: rest) false = .error (.rangeErr "byteLength out of range") := by
  have hfuel : (b :: 0x80 :: rest).length + 3 = (rest.length + 4) + 1 := by
    simp only [List.length_cons]; try omega
  have h1 : (⟨b :: 0x80 :: rest, 0, 0⟩ : BufferVisitor).mustWalk 1
      "Too few bytes to read ASN.1 tag." = .ok ⟨b :: 0x80 :: rest, 0, 1⟩ := by
    rw [mustWalk_eq, if_neg (by simp only [List.length_cons]; omega)]
  have h2 : (⟨b :: 0x80 :: rest, 0, 1⟩ : BufferVisitor).mustWalk 1
      "Too few bytes to read ASN.1 value length." = .ok ⟨b :: 0x80 :: rest, 1, 2⟩ := by
    rw [mustWalk_eq, if_neg (by simp only [List.length_cons]; omega)]
  have h3 : (⟨b :: 0x80 :: rest, 1, 2⟩ : BufferVisitor).mustWalk 0
      "Too few bytes to read ASN.1 value length." = .ok ⟨b :: 0x80 :: rest, 2, 2⟩ := by
    rw [mustWalk_eq, if_neg (by simp only [List.length_cons]; omega)]
  have hgv : getValueLength ⟨b :: 0x80 :: rest, 0, 1⟩ =
      .error (.rangeErr "byteLength out of range") := by
    rw [getValueLength, h2]
    simp only [bindOk, List.getD_cons_succ, List.getD_cons_zero]
    rw [if_neg (by decide), show (128 : Nat) &&& 0x7f = 0 from rfl, h3]
    simp only [bindOk]
    rw [readUIntBE, if_pos (Or.inl (by decide))]
    rfl
  rw [fromDER, hfuel]
  simp only [fromDERAux]
  rw [if_neg (by simp), mk0_eq, h1]
  simp only [bindOk]
  rw [hgv]
  rfl

/-- Helper for C10: a successfully (shallow-)decoded node whose tag — the
low 5 bits of the identifier octet, whatever the class bits — is `NULL`
has empty value bytes, at any fuel. -/
theorem fromDERAux_null_bytes (fuel : Nat) :
    ∀ (v v' : BufferVisitor) (a : ASN1),
      fromDERAux fuel v false = .ok (v', a) → a.tag = 5 → a.bytes = [] := by
  induction fuel with
  | zero => intro v v' a h; cases h
  | succ fuel _ih =>
    intro v v' a h ht
    simp only [fromDERAux] at h
    split at h
    · cases h
    · cases hw1 : v.mustWalk 1 "Too few bytes to read ASN.1 tag." with
      | error e => rw [hw1] at h; cases h
      | ok v1 =>
        rw [hw1] at h
        simp only [bindOk] at h
        cases hg : getValueLength v1 with
        | error e => rw [hg] at h; cases h
        | ok p =>
          obtain ⟨v2, valueLen⟩ := p
          rw [hg] at h
          simp only [bindOk] at h
          cases hh : v2.mustHas valueLen "Too few bytes to parse." with
          | error e => rw [hh] at h; cases h
          | ok v3 =>
            rw [hh] at h
            simp only [bindOk] at h
            split at h
            · cases h
            · rename_i hcond
              rw [mustWalk_eq] at h
              split at h
              · cases h
              · simp only [bindOk] at h
                rw [if_neg (by simp)] at h
                simp only [bindOk, pure] at h
                cases h
                simp only [ASN1.tag, mkASN1] at ht
                have hlen : valueLen = 0 := by
                  by_contra hne
                  exact hcond ⟨hne, ht⟩
                subst hlen
                simp [ASN1.bytes, mkASN1, jsSlice]

/-- C10: the NULL-with-content rejection of `ASN1._fromDER` keys on the
5-bit tag number alone, not on the class: a successfully decoded node
with tag number `NULL` always has empty value bytes (first conjunct),
and a `CONTEXT_SPECIFIC [5]` identifier octet (`0xA5`) with a nonempty
value is rejected with the hard NULL error (second conjunct). -/
theorem fromDER_null_keyed_on_tag_bits :
    (∀ (buf : List Nat) (a : ASN1), fromDER buf false = .ok a → a.tag = 5 → a.bytes = []) ∧
      fromDER [0xA5, 0x01, 0x00] false = .error (.syntaxErr "invalid value length or NULL tag.") ∧
      fromDER [0xE5, 0x01, 0x00] false = .error (.syntaxErr "invalid value length or NULL tag.") := by
  refine ⟨?_, rfl, rfl⟩
  intro buf a h ht
  rw [fromDER] at h
  cases hfd : fromDERAux (buf.length + 3) (BufferVisitor.mk0 buf) false with
  | error e => rw [hfd] at h; cases h
  | ok p =>
    obtain ⟨v', a'⟩ := p
    rw [hfd] at h
    simp only [bindOk] at h
    cases h
    exact fromDERAux_null_bytes _ _ _ _ hfd ht

/-- C10 witness: a buffer decoding to a zero-length private-class node
with tag number 5 exercises the first conjunct at a concrete input. -/
theorem fromDER_null_keyed_on_tag_bits_witness :
    (ASN1.mk 0xC0 5 [] true none (some [0xE5, 0x00]) : ASN1).bytes = [] :=
  fromDER_null_keyed_on_tag_bits.1 [0xE5, 0x00]
    (ASN1.mk 0xC0 5 [] true none (some [0xE5, 0x00])) (by rfl) (by rfl)

/-- Signed big-endian round trip: `readIntBE` undoes `writeIntBE` for
values representable in `k` bytes. -/
theorem readIntBE_writeIntBE (k : Nat) (v : Int) (hk1 : 1 ≤ k) (hk6 : k ≤ 6)
    (hlo : -(2 ^ (8 * k - 1)) ≤ v) (hhi : v < 2 ^ (8 * k - 1)) :
    readIntBE (writeIntBE v k) 0 k = .ok v := by
  have hpow : (2 : Int) ^ (8 * k) = 2 ^ (8 * k - 1) * 2 := by
    rw [← pow_succ]
    congr 1
    omega
  have hHpos : (0 : Int) < 2 ^ (8 * k - 1) := pow_pos (by norm_num) _
  have hMpos : (0 : Int) < 2 ^ (8 * k) := pow_pos (by norm_num) _
  have hemod : v.emod (2 ^ (8 * k)) = if 0 ≤ v then v else v + 2 ^ (8 * k) := by
    rcases le_or_lt 0 v with hv | hv
    · rw [if_pos hv]
      exact Int.emod_eq_of_lt hv (by omega)
    · rw [if_neg (by omega)]
      have h1 : (v + 2 ^ (8 * k) * 1).emod (2 ^ (8 * k)) = v.emod (2 ^ (8 * k)) :=
        Int.add_mul_emod_self_left v (2 ^ (8 * k)) 1
      have h2 : (v + 2 ^ (8 * k)).emod (2 ^ (8 * k)) = v + 2 ^ (8 * k) :=
        Int.emod_eq_of_lt (by omega) (by omega)
    
      rw [← h2, ← h1]
      congr 1
      ring
  have hlen : (writeIntBE v k).length = k := beBytes_length _ _
  have hu : beCombine (writeIntBE v k) = (v.emod (2 ^ (8 * k))).toNat := by
    rw [writeIntBE, beCombine_beBytes]
    have hlt : (v.emod (2 ^ (8 * k))).toNat < 2 ^ (8 * k) := by
      have := Int.emod_lt_of_pos v hMpos
      have := Int.emod_nonneg v (by omega : (2 : Int) ^ (8 * k) ≠ 0)
      have hcast : ((2 : Int) ^ (8 * k)) = ((2 ^ (8 * k) : Nat) : Int) := by push_cast; ring
      omega
    exact Nat.mod_eq_of_lt hlt
  rw [readIntBE, readUIntBE, if_neg (by omega), if_neg (by rw [hlen]; omega)]
  simp only [List.drop_zero, bindOk]
  have htake : (writeIntBE v k).take k = writeIntBE v k := by
    exact List.take_of_length_le (by omega)
  rw [htake, hu]
  have hNat : ((2 ^ (8 * k - 1) : Nat) : Int) = (2 : Int) ^ (8 * k - 1) := by
    push_cast; ring
  rcases le_or_lt 0 v with hv | hv
  · have he : v.emod (2 ^ (8 * k)) = v := by rw [hemod, if_pos hv]
    rw [he]
    have ht : (v.toNat : Int) = v := Int.toNat_of_nonneg hv
    rw [if_pos (by omega)]
    congr 1
  · have he : v.emod (2 ^ (8 * k)) = v + 2 ^ (8 * k) := by rw [hemod, if_neg (by omega)]
    rw [he]
    have ht : ((v + 2 ^ (8 * k)).toNat : Int) = v + 2 ^ (8 * k) :=
      Int.toNat_of_nonneg (by omega)
    rw [if_neg (by omega)]
    congr 1
    omega

/-- `parseInteger` undoes `writeIntBE` for values representable in
`k ≤ 6` bytes. -/
theorem parseInteger_writeIntBE (k : Nat) (v : Int) (hk1 : 1 ≤ k) (hk6 : k ≤ 6)
    (hlo : -(2 ^ (8 * k - 1)) ≤ v) (hhi : v < 2 ^ (8 * k - 1)) :
    parseInteger (writeIntBE v k) = .ok (.num v) := by
  have hlen : (writeIntBE v k).length = k := beBytes_length _ _
  rw [parseInteger, if_neg (by omega), if_neg (by omega), hlen,
    readIntBE_writeIntBE k v hk1 hk6 hlo hhi]
  rfl

/-- C4: integer round trip on [-2^47, 2^47) with the width (1..6 bytes)
chosen by the source's value ranges, and hex-string decoding for buffers
longer than 6 bytes. -/
theorem integer_roundtrip :
    (∀ v : Int, -(2 ^ 47) ≤ v → v < 2 ^ 47 →
      ∃ bytes, integerBytes v = .ok bytes ∧
        bytes.length = (if -(0x80 : Int) ≤ v ∧ v < 0x80 then 1
          else if -(0x8000 : Int) ≤ v ∧ v < 0x8000 then 2
          else if -(0x800000 : Int) ≤ v ∧ v < 0x800000 then 3
          else if -(0x80000000 : Int) ≤ v ∧ v < 0x80000000 then 4
          else if -(0x8000000000 : Int) ≤ v ∧ v < 0x8000000000 then 5
          else 6) ∧
        parseInteger bytes = .ok (.num v)) ∧
    (∀ buf : List Nat, buf.length > 6 → parseInteger buf = .ok (.str (hexStr buf))) := by
  constructor
  · intro v h1 h2
    have hsafe : ¬ (v < -(9007199254740991 : Int) ∨ (9007199254740991 : Int) < v) := by
      push_neg
      constructor <;> omega
    by_cases c1 : -(0x80 : Int) ≤ v ∧ v < 0x80
    · refine ⟨writeIntBE v 1, ?_, ?_, ?_⟩
      · rw [integerBytes, if_neg hsafe, if_pos (by omega)]
      · rw [if_pos c1]; exact beBytes_length _ _
      · exact parseInteger_writeIntBE 1 v (by omega) (by omega) (by norm_num; omega)
          (by norm_num; omega)
    · by_cases c2 : -(0x8000 : Int) ≤ v ∧ v < 0x8000
      · refine ⟨writeIntBE v 2, ?_, ?_, ?_⟩
        · rw [integerBytes, if_neg hsafe, if_neg (by omega), if_pos (by omega)]
        · rw [if_neg c1, if_pos c2]; exact beBytes_length _ _
        · exact parseInteger_writeIntBE 2 v (by omega) (by omega) (by norm_num; omega)
            (by norm_num; omega)
      · by_cases c3 : -(0x800000 : Int) ≤ v ∧ v < 0x800000
        · refine ⟨writeIntBE v 3, ?_, ?_, ?_⟩
          · rw [integerBytes, if_neg hsafe, if_neg (by omega), if_neg (by omega),
              if_pos (by omega)]
          · rw [if_neg c1, if_neg c2, if_pos c3]; exact beBytes_length _ _
          · exact parseInteger_writeIntBE 3 v (by omega) (by omega) (by norm_num; omega)
              (by norm_num; omega)
        · by_cases c4 : -(0x80000000 : Int) ≤ v ∧ v < 0x80000000
          · refine ⟨writeIntBE v 4, ?_, ?_, ?_⟩
            · rw [integerBytes, if_neg hsafe, if_neg (by omega), if_neg (by omega),
                if_neg (by omega), if_pos (by omega)]
            · rw [if_neg c1, if_neg c2, if_neg c3, if_pos c4]; exact beBytes_length _ _
            · exact parseInteger_writeIntBE 4 v (by omega) (by omega) (by norm_num; omega)
                (by norm_num; omega)
          · by_cases c5 : -(0x8000000000 : Int) ≤ v ∧ v < 0x8000000000
            · refine ⟨writeIntBE v 5, ?_, ?_, ?_⟩
              · rw [integerBytes, if_neg hsafe, if_neg (by omega), if_neg (by omega),
                  if_neg (by omega), if_neg (by omega), if_pos (by omega)]
              · rw [if_neg c1, if_neg c2, if_neg c3, if_neg c4, if_pos c5]
                exact beBytes_length _ _
              · exact parseInteger_writeIntBE 5 v (by omega) (by omega) (by norm_num; omega)
                  (by norm_num; omega)
            · refine ⟨writeIntBE v 6, ?_, ?_, ?_⟩
              · rw [integerBytes, if_neg hsafe, if_neg (by omega), if_neg (by omega),
                  if_neg (by omega), if_neg (by omega), if_neg (by omega),
                  if_pos (by omega)]
              · rw [if_neg c1, if_neg c2, if_neg c3, if_neg c4, if_neg c5]
                exact beBytes_length _ _
              · exact parseInteger_writeIntBE 6 v (by omega) (by omega) (by norm_num; omega)
                  (by norm_num; omega)
  · intro buf h
    rw [parseInteger, if_neg (by omega), if_pos h]

/-- C4 witness: a 2-byte value round trips with the minimal width, and a
7-byte buffer decodes to its hex string. -/
theorem integer_roundtrip_witness :
    (∃ bytes, integerBytes 300 = .ok bytes ∧
      bytes.length = (if -(0x80 : Int) ≤ 300 ∧ (300 : Int) < 0x80 then 1
        else if -(0x8000 : Int) ≤ 300 ∧ (300 : Int) < 0x8000 then 2
        else if -(0x800000 : Int) ≤ 300 ∧ (300 : Int) < 0x800000 then 3
        else if -(0x80000000 : Int) ≤ 300 ∧ (300 : Int) < 0x80000000 then 4
        else if -(0x8000000000 : Int) ≤ 300 ∧ (300 : Int) < 0x8000000000 then 5
        else 6) ∧
      parseInteger bytes = .ok (.num 300)) ∧
    parseInteger [0, 1, 2, 3, 4, 5, 6] = .ok (.str (hexStr [0, 1, 2, 3, 4, 5, 6])) :=
  ⟨integer_roundtrip.1 300 (by norm_num) (by norm_num),
   integer_roundtrip.2 [0, 1, 2, 3, 4, 5, 6] (by norm_num)⟩

/-- Identifier-octet bit facts: for the four DER classes, a 5-bit tag
and the constructed bit, masking recovers each field. -/
theorem identifier_bits :
    ∀ t : Nat, t < 31 → ∀ ic : Bool, ∀ c ∈ [0x00, 0x40, 0x80, 0xC0],
      ((c ||| t ||| (if ic then 0x20 else 0)) &&& 0xc0 = c ∧
       (c ||| t ||| (if ic then 0x20 else 0)) &&& 0x1f = t ∧
       ((c ||| t ||| (if ic then 0x20 else 0)) &&& 0x20 = 0x20 ↔ ic = true)) := by
  decide

/-- A short-form length octet has a clear high bit. -/
theorem land128_eq_zero : ∀ n : Nat, n < 128 → n &&& 128 = 0 := by
  decide

/-- Long-form length octet bit facts for the counts `1..6`. -/
theorem lenOct_bits :
    ∀ cnt : Nat, 1 ≤ cnt → cnt ≤ 6 →
      ((cnt ||| 128) &&& 128 ≠ 0 ∧ (cnt ||| 128) &&& 127 = cnt) := by
  decide

theorem jsSlice_zero_length (l : List Nat) : jsSlice l 0 l.length = l := by
  simp [jsSlice]

theorem take_append_eq_left {l1 l2 : List Nat} {n : Nat} (h : l1.length = n) :
    (l1 ++ l2).take n = l1 := by
  subst h
  simp [List.take_left]

theorem drop_append_eq_right {l1 l2 : List Nat} {n : Nat} (h : l1.length = n) :
    (l1 ++ l2).drop n = l2 := by
  subst h
  simp [List.drop_left]

/-- Generic success shape of a shallow `fromDER` once the length parse is
known: the node carries class and tag masked out of the identifier
octet, the value slice, and the raw constructed bit (before the
SEQUENCE/SET forcing of the constructor). -/
theorem fromDER_ok_of_getValueLength (b1 : Nat) (rest : List Nat)
    (v2 : BufferVisitor) (L : Nat)
    (hgv : getValueLength ⟨b1 :: rest, 0, 1⟩ = .ok (v2, L))
    (hbuf : v2.buf = b1 :: rest)
    (hend : v2.end_ + L = (b1 :: rest).length)
    (hnn : ¬(L ≠ 0 ∧ b1 &&& 0x1f = 5)) :
    fromDER (b1 :: rest) false = .ok (ASN1.mk (b1 &&& 0xc0) (b1 &&& 0x1f)
      (jsSlice (b1 :: rest) v2.end_ (v2.end_ + L))
      (decide (b1 &&& 0x20 = 0x20) || (b1 &&& 0x1f) == 16 || (b1 &&& 0x1f) == 17)
      none (some (b1 :: rest))) := by
  obtain ⟨bv, s2, e2⟩ := v2
  simp only [BufferVisitor.buf] at hbuf
  simp only [BufferVisitor.end_] at hend
  subst hbuf
  rw [fromDER]
  rw [show (b1 :: rest).length + 3 = ((b1 :: rest).length + 2) + 1 from rfl]
  simp only [fromDERAux]
  rw [if_neg (by simp), mk0_eq]
  rw [mustWalk_eq, if_neg (by simp only [List.length_cons]; omega)]
  simp only [bindOk, List.getD_cons_zero]
  rw [hgv]
  simp only [bindOk]
  rw [mustHas_eq, if_neg (by simp only [BufferVisitor.end_, BufferVisitor.buf]; omega)]
  simp only [bindOk, BufferVisitor.buf, BufferVisitor.end_]
  rw [if_neg hnn]
  rw [mustWalk_eq]
  simp only [BufferVisitor.end_, BufferVisitor.buf]
  rw [if_neg (by omega)]
  simp only [bindOk]
  rw [if_neg (by simp)]
  simp only [bindOk, pure]
  have hder : jsSlice (b1 :: rest) 0 (e2 + L) = b1 :: rest := by
    rw [hend]
    exact jsSlice_zero_length _
  rw [hder]
  rfl

/-- Short-form length: `getValueLength` on a header `b1 :: L :: value`
with `L ≤ 127`. -/
theorem getValueLength_short (b1 L : Nat) (value : List Nat) (hL : L < 128) :
    getValueLength ⟨b1 :: L :: value, 0, 1⟩ =
      .ok (⟨b1 :: L :: value, 1, 2⟩, L) := by
  rw [getValueLength]
  rw [mustWalk_eq, if_neg (by simp only [List.length_cons]; omega)]
  simp only [bindOk, List.getD_cons_succ, List.getD_cons_zero]
  rw [if_pos (land128_eq_zero L hL)]

/-- Long-form length: `getValueLength` on a header
`b1 :: (cnt | 0x80) :: beBytes cnt len ++ value` with `1 ≤ cnt ≤ 6` and
`len < 2^(8·cnt)`. -/
theorem getValueLength_long (b1 cnt len : Nat) (value : List Nat)
    (h1 : 1 ≤ cnt) (h6 : cnt ≤ 6) (hlen : len < 2 ^ (8 * cnt)) :
    getValueLength ⟨b1 :: (cnt ||| 128) :: (beBytes cnt len ++ value), 0, 1⟩ =
      .ok (⟨b1 :: (cnt ||| 128) :: (beBytes cnt len ++ value), 2, 2 + cnt⟩, len) := by
  have hblen : (beBytes cnt len).length = cnt := beBytes_length _ _
  have hlistlen : (b1 :: (cnt ||| 128) :: (beBytes cnt len ++ value)).length =
      2 + cnt + value.length := by
    simp only [List.length_cons, List.length_append, hblen]
    omega
  rw [getValueLength]
  rw [mustWalk_eq, if_neg (by simp only [BufferVisitor.end_, BufferVisitor.buf, hlistlen]; omega)]
  simp only [bindOk, List.getD_cons_succ, List.getD_cons_zero]
  rw [if_neg (lenOct_bits cnt h1 h6).1]
  rw [(lenOct_bits cnt h1 h6).2]
  rw [mustWalk_eq]
  simp only [BufferVisitor.end_, BufferVisitor.buf]
  rw [if_neg (by rw [hlistlen]; omega)]
  simp only [bindOk]
  rw [readUIntBE, if_neg (by omega)]
  rw [if_neg (by rw [hlistlen]; omega)]
  have hdrop : (b1 :: (cnt ||| 128) :: (beBytes cnt len ++ value)).drop 2 =
      beBytes cnt len ++ value := by simp
  rw [hdrop, take_append_eq_left hblen, beCombine_beBytes, Nat.mod_eq_of_lt hlen]
  simp only [bindOk]

theorem bool_or_absorb : ∀ a b2 b3 : Bool, ((a || b2 || b3) || b2 || b3) = (a || b2 || b3) := by
  decide

theorem decide_eq_of_iff (p : Prop) [Decidable p] (x : Bool) (h : p ↔ x = true) :
    decide p = x := by
  cases x
  · have hnp : ¬ p := fun hp => by simpa using h.mp hp
    simp [hnp]
  · simp [h.mpr rfl]

/-- The value slice of a decoded encoded buffer is the original value. -/
theorem jsSlice_encoded (b1 : Nat) (header bytes : List Nat) :
    jsSlice (b1 :: (header ++ bytes)) (1 + header.length) (1 + header.length + bytes.length) =
      bytes := by
  rw [jsSlice, show 1 + header.length = header.length + 1 from by omega]
  rw [List.drop_succ_cons, drop_append_eq_right rfl]
  rw [show header.length + 1 + bytes.length - (header.length + 1) = bytes.length from by omega]
  simp

/-- Round-trip core: once the encoding and its length parse are known,
`fromDER ∘ toDER` preserves `bytes`, `class`, `tag` and `isCompound`. -/
theorem tlv_roundtrip_core (c t : Nat) (bytes : List Nat) (comp : Bool)
    (header : List Nat) (s v2end : Nat)
    (hc : c ∈ [0x00, 0x40, 0x80, 0xC0]) (ht : t ≤ 30)
    (hnull : t = 5 → bytes = [])
    (hgv : getValueLength
      ⟨(c ||| t ||| (if (comp || t == 16 || t == 17) then 0x20 else 0)) :: (header ++ bytes),
        0, 1⟩ =
      .ok (⟨(c ||| t ||| (if (comp || t == 16 || t == 17) then 0x20 else 0)) ::
        (header ++ bytes), s, v2end⟩, bytes.length))
    (hv2 : v2end = 1 + header.length)
    (htoDER : toDER (mkASN1 c t bytes comp) =
      .ok ((c ||| t ||| (if (comp || t == 16 || t == 17) then 0x20 else 0)) ::
        (header ++ bytes))) :
    ∃ der m, toDER (mkASN1 c t bytes comp) = .ok der ∧
      fromDER der false = .ok m ∧
      m.bytes = (mkASN1 c t bytes comp).bytes ∧
      m.cls = (mkASN1 c t bytes comp).cls ∧
      m.tag = (mkASN1 c t bytes comp).tag ∧
      m.isCompound = (mkASN1 c t bytes comp).isCompound := by
  obtain ⟨hb1c, hb1t, hb1ic⟩ :=
    identifier_bits t (by omega) (comp || t == 16 || t == 17) c hc
  have hnn : ¬(bytes.length ≠ 0 ∧
      (c ||| t ||| (if (comp || t == 16 || t == 17) then 0x20 else 0)) &&& 0x1f = 5) := by
    rw [hb1t]
    rintro ⟨hlen0, ht5⟩
    exact hlen0 (by rw [hnull ht5]; rfl)
  have hend : v2end + bytes.length =
      ((c ||| t ||| (if (comp || t == 16 || t == 17) then 0x20 else 0)) ::
        (header ++ bytes)).length := by
    simp only [List.length_cons, List.length_append, hv2]
    omega
  have hdec := fromDER_ok_of_getValueLength _ (header ++ bytes) _ bytes.length hgv rfl hend hnn
  rw [show (⟨(c ||| t ||| (if (comp || t == 16 || t == 17) then 0x20 else 0)) ::
    (header ++ bytes), s, v2end⟩ : BufferVisitor).end_ = v2end from rfl, hv2,
    jsSlice_encoded] at hdec
  refine ⟨_, _, htoDER, hdec, rfl, ?_, ?_, ?_⟩
  · simp only [ASN1.cls, mkASN1_cls]
    exact hb1c
  · simp only [ASN1.tag, mkASN1_tag]
    exact hb1t
  · simp only [ASN1.isCompound, mkASN1]
    rw [hb1t]
    have hdc : decide ((c ||| t ||| (if (comp || t == 16 || t == 17) then 0x20 else 0)) &&&
        0x20 = 0x20) = (comp || t == 16 || t == 17) := decide_eq_of_iff _ _ hb1ic
    rw [hdc, bool_or_absorb]

/-- C1 (amended): the TLV round trip holds for every validly constructed
node whose tag is not `NULL`-with-content: for `class` one of the four
DER classes, `tag ≤ 30`, `bytes` shorter than 2^48 and (`tag = 5` only
with empty `bytes`), decoding the encoding preserves `bytes`, `class`,
`tag` and `isCompound`. -/
theorem tlv_roundtrip (c t : Nat) (bytes : List Nat) (comp : Bool)
    (hc : c = 0x00 ∨ c = 0x40 ∨ c = 0x80 ∨ c = 0xC0) (ht : t ≤ 30)
    (hlen : bytes.length < 2 ^ 48)
    (hnull : t = 5 → bytes = []) :
    ∃ der m, toDER (mkASN1 c t bytes comp) = .ok der ∧
      fromDER der false = .ok m ∧
      m.bytes = (mkASN1 c t bytes comp).bytes ∧
      m.cls = (mkASN1 c t bytes comp).cls ∧
      m.tag = (mkASN1 c t bytes comp).tag ∧
      m.isCompound = (mkASN1 c t bytes comp).isCompound := by
  have hcmem : c ∈ [0x00, 0x40, 0x80, 0xC0] := by
    rcases hc with h | h | h | h <;> simp [h]
  by_cases h127 : bytes.length ≤ 127
  · refine tlv_roundtrip_core c t bytes comp [bytes.length] 1 2 hcmem ht hnull
      (getValueLength_short _ _ _ (by omega)) (by simp) ?_
    rw [toDER]
    simp only [mkASN1_cls, mkASN1_tag, mkASN1_isCompound, mkASN1_bytes]
    rw [getValueLengthByte, if_pos h127]
    simp only [bindOk]
    simp
  · by_cases h2 : bytes.length ≤ 0xff
    · refine tlv_roundtrip_core c t bytes comp ((1 ||| 128) :: beBytes 1 bytes.length) 2 3
        hcmem ht hnull
        (getValueLength_long _ 1 _ _ (by omega) (by omega) (by norm_num; omega))
        (by simp [beBytes_length]) ?_
      rw [toDER]
      simp only [mkASN1_cls, mkASN1_tag, mkASN1_isCompound, mkASN1_bytes]
      rw [getValueLengthByte, if_neg (by omega), if_pos h2]
      simp only [bindOk]
      rw [if_neg (by omega)]
      rfl
    · by_cases h3 : bytes.length ≤ 0xffff
      · refine tlv_roundtrip_core c t bytes comp ((2 ||| 128) :: beBytes 2 bytes.length) 2 4
          hcmem ht hnull
          (getValueLength_long _ 2 _ _ (by omega) (by omega) (by norm_num; omega))
          (by simp [beBytes_length]) ?_
        rw [toDER]
        simp only [mkASN1_cls, mkASN1_tag, mkASN1_isCompound, mkASN1_bytes]
        rw [getValueLengthByte, if_neg (by omega), if_neg (by omega), if_pos h3]
        simp only [bindOk]
        rw [if_neg (by omega)]
        rfl
      · by_cases h4 : bytes.length ≤ 0xffffff
        · refine tlv_roundtrip_core c t bytes comp ((3 ||| 128) :: beBytes 3 bytes.length) 2 5
            hcmem ht hnull
            (getValueLength_long _ 3 _ _ (by omega) (by omega) (by norm_num; omega))
            (by simp [beBytes_length]) ?_
          rw [toDER]
          simp only [mkASN1_cls, mkASN1_tag, mkASN1_isCompound, mkASN1_bytes]
          rw [getValueLengthByte, if_neg (by omega), if_neg (by omega), if_neg (by omega),
            if_pos h4]
          simp only [bindOk]
          rw [if_neg (by omega)]
          rfl
        · by_cases h5 : bytes.length ≤ 0xffffffff
          · refine tlv_roundtrip_core c t bytes comp ((4 ||| 128) :: beBytes 4 bytes.length) 2 6
              hcmem ht hnull
              (getValueLength_long _ 4 _ _ (by omega) (by omega) (by norm_num; omega))
              (by simp [beBytes_length]) ?_
            rw [toDER]
            simp only [mkASN1_cls, mkASN1_tag, mkASN1_isCompound, mkASN1_bytes]
            rw [getValueLengthByte, if_neg (by omega), if_neg (by omega), if_neg (by omega),
              if_neg (by omega), if_pos h5]
            simp only [bindOk]
            rw [if_neg (by omega)]
            rfl
          · by_cases h6 : bytes.length ≤ 0xffffffffff
            · refine tlv_roundtrip_core c t bytes comp
                ((5 ||| 128) :: beBytes 5 bytes.length) 2 7 hcmem ht hnull
                (getValueLength_long _ 5 _ _ (by omega) (by omega) (by norm_num; omega))
                (by simp [beBytes_length]) ?_
              rw [toDER]
              simp only [mkASN1_cls, mkASN1_tag, mkASN1_isCompound, mkASN1_bytes]
              rw [getValueLengthByte, if_neg (by omega), if_neg (by omega), if_neg (by omega),
                if_neg (by omega), if_neg (by omega), if_pos h6]
              simp only [bindOk]
              rw [if_neg (by omega)]
              rfl
            · refine tlv_roundtrip_core c t bytes comp
                ((6 ||| 128) :: beBytes 6 bytes.length) 2 8 hcmem ht hnull
                (getValueLength_long _ 6 _ _ (by omega) (by omega) (by norm_num; omega))
                (by simp [beBytes_length]) ?_
              rw [toDER]
              simp only [mkASN1_cls, mkASN1_tag, mkASN1_isCompound, mkASN1_bytes]
              rw [getValueLengthByte, if_neg (by omega), if_neg (by omega), if_neg (by omega),
                if_neg (by omega), if_neg (by omega), if_neg (by omega),
                if_pos (by omega)]
              simp only [bindOk]
              rw [if_neg (by omega)]
              rfl

/-- C1 counterexample: the node constructed as `new ASN1(UNIVERSAL, NULL,
[0x00])` is validly constructed per the claim (class `UNIVERSAL`, tag 5 ≤
30, 1 byte < 2^48), but decoding its encoding throws the hard NULL error
instead of returning an equal node. -/
theorem tlv_roundtrip_null_counterexample :
    toDER (mkASN1 0 5 [0] false) = .ok [0x05, 0x01, 0x00] ∧
      fromDER [0x05, 0x01, 0x00] false =
        .error (.syntaxErr "invalid value length or NULL tag.") ∧
      ∀ m : ASN1, fromDER [0x05, 0x01, 0x00] false ≠ .ok m := by
  refine ⟨rfl, rfl, ?_⟩
  intro m h
  rw [show fromDER [0x05, 0x01, 0x00] false =
    .error (.syntaxErr "invalid value length or NULL tag.") from rfl] at h
  cases h

/-- C1 witness: the round trip applied to a compound context-specific
node with a 200-byte value (long-form length). -/
theorem tlv_roundtrip_witness :
    ∃ der m, toDER (mkASN1 0x80 0 (List.replicate 200 7) true) = .ok der ∧
      fromDER der false = .ok m ∧
      m.bytes = (mkASN1 0x80 0 (List.replicate 200 7) true).bytes ∧
      m.cls = (mkASN1 0x80 0 (List.replicate 200 7) true).cls ∧
      m.tag = (mkASN1 0x80 0 (List.replicate 200 7) true).tag ∧
      m.isCompound = (mkASN1 0x80 0 (List.replicate 200 7) true).isCompound :=
  tlv_roundtrip 0x80 0 (List.replicate 200 7) true (by norm_num) (by norm_num)
    (by simp only [List.length_replicate]; norm_num) (by intro h; simp at h)

/-! ## Decimal rendering / parsing lemmas (for the OID round trip) -/

theorem decDigit_toNat : ∀ d : Nat, d < 10 → (decDigit d).toNat = 48 + d := by
  decide

theorem decReprAux_digits (fuel : Nat) :
    ∀ n, n < fuel → ∀ c ∈ decReprAux fuel n, 48 ≤ c.toNat ∧ c.toNat ≤ 57 := by
  induction fuel with
  | zero => intro n h; omega
  | succ fuel ih =>
    intro n hn c hc
    rw [decReprAux] at hc
    split at hc
    · rename_i h10
      simp only [List.mem_singleton] at hc
      subst hc
      rw [decDigit_toNat n h10]
      omega
    · rename_i h10
      rcases List.mem_append.mp hc with h | h
      · exact ih (n / 10) (by omega) c h
      · simp only [List.mem_singleton] at h
        subst h
        rw [decDigit_toNat (n % 10) (by omega)]
        omega

theorem decRepr_digits (n : Nat) :
    ∀ c ∈ decRepr n, 48 ≤ c.toNat ∧ c.toNat ≤ 57 :=
  decReprAux_digits (n + 1) n (by omega)

theorem decReprAux_ne_nil (fuel n : Nat) (h : n < fuel) : decReprAux fuel n ≠ [] := by
  cases fuel with
  | zero => omega
  | succ fuel =>
    rw [decReprAux]
    split
    · simp
    · simp

theorem decReprAux_foldl (fuel : Nat) :
    ∀ n, n < fuel → ∀ acc : Int,
      (decReprAux fuel n).foldl (fun acc c => acc * 10 + ((c.toNat - 48 : Nat) : Int)) acc =
        acc * 10 ^ (decReprAux fuel n).length + n := by
  induction fuel with
  | zero => intro n h; omega
  | succ fuel ih =>
    intro n hn acc
    rw [decReprAux]
    split
    · rename_i h10
      simp only [List.foldl_cons, List.foldl_nil, List.length_singleton, pow_one]
      rw [decDigit_toNat n h10]
      have hsub : 48 + n - 48 = n := by omega
      rw [hsub]
    · rename_i h10
      rw [List.foldl_append, ih (n / 10) (by omega)]
      simp only [List.foldl_cons, List.foldl_nil, List.length_append,
        List.length_singleton]
      rw [decDigit_toNat (n % 10) (by omega)]
      have hsub : 48 + n % 10 - 48 = n % 10 := by omega
      rw [hsub]
      have hdm : ((n / 10 : Nat) : Int) * 10 + ((n % 10 : Nat) : Int) = (n : Int) := by
        push_cast
        omega
      calc (acc * 10 ^ (decReprAux fuel (n / 10)).length + ((n / 10 : Nat) : Int)) * 10 +
            ((n % 10 : Nat) : Int)
          = acc * (10 ^ (decReprAux fuel (n / 10)).length * 10) +
            (((n / 10 : Nat) : Int) * 10 + ((n % 10 : Nat) : Int)) := by ring
        _ = acc * 10 ^ ((decReprAux fuel (n / 10)).length + 1) + n := by
            rw [hdm, pow_succ]

/-- `parseInt` inverts the decimal rendering of a natural number. -/
theorem parseIntJS_decRepr (n : Nat) : parseIntJS (decRepr n) = some (n : Int) := by
  have hne := decReprAux_ne_nil (n + 1) n (by omega)
  have hdig := decRepr_digits n
  rw [decRepr] at hdig ⊢
  cases hl : decReprAux (n + 1) n with
  | nil => exact absurd hl hne
  | cons c cs =>
    rw [hl] at hdig
    have hc := hdig c (by simp)
    rw [parseIntJS]
    have hdrop : (c :: cs).dropWhile (fun c => c == ' ') = c :: cs := by
      rw [List.dropWhile]
      have : ¬ (c == ' ') = true := by
        intro hsp
        have := congrArg Char.toNat (eq_of_beq hsp)
        simp at this
        omega
      simp [this]
    rw [hdrop]
    have hnotminus : c ≠ '-' := by
      intro hh
      have := congrArg Char.toNat hh
      simp at this
      omega
    have hnotplus : c ≠ '+' := by
      intro hh
      have := congrArg Char.toNat hh
      simp at this
      omega
    have htake : (c :: cs).takeWhile (fun c => 48 ≤ c.toNat && c.toNat ≤ 57) = c :: cs := by
      apply List.takeWhile_eq_self_iff.mpr
      intro x hx
      have := hdig x hx
      simp only [Bool.and_eq_true, decide_eq_true_eq]
      omega
    simp only []
    -- reduce the sign match: the head is a digit, neither '-' nor '+'
    have hmatch : (match c :: cs with
        | '-' :: r => ((-1 : Int), r)
        | '+' :: r => ((1 : Int), r)
        | _ => ((1 : Int), c :: cs)) = ((1 : Int), c :: cs) := by
      split
      next r heq =>
        rw [List.cons_eq_cons] at heq
        exact absurd heq.1 hnotminus
      next r heq =>
        rw [List.cons_eq_cons] at heq
        exact absurd heq.1 hnotplus
      next => rfl
    rw [hmatch, htake]
    rw [if_neg (by simp)]
    have hfold := decReprAux_foldl (n + 1) n (by omega) 0
    rw [hl] at hfold
    rw [hfold]
    simp

theorem decRepr_no_dot (n : Nat) : ∀ c ∈ decRepr n, c ≠ '.' := by
  intro c hc hdot
  have := decRepr_digits n c hc
  have := congrArg Char.toNat hdot
  simp at this
  omega

theorem mustParseInt_decRepr (n : Nat) : mustParseInt (decRepr n) = .ok (n : Int) := by
  rw [mustParseInt, parseIntJS_decRepr]

/-! ## `split('.')` / dotted-join lemmas -/

theorem splitDot_ne_nil (s : List Char) : splitDot s ≠ [] := by
  cases s with
  | nil => simp [splitDot]
  | cons c rest =>
    rw [splitDot]
    cases splitDot rest with
    | nil => simp [splitDotCons]
    | cons p ps =>
      rw [splitDotCons]
      split <;> simp

theorem splitDot_no_dot (p : List Char) (h : ∀ c ∈ p, c ≠ '.') : splitDot p = [p] := by
  induction p with
  | nil => rfl
  | cons c cs ih =>
    rw [splitDot, ih (fun x hx => h x (by simp [hx])), splitDotCons]
    rw [if_neg (h c (by simp))]

theorem splitDot_append_dot (p t : List Char) (h : ∀ c ∈ p, c ≠ '.') :
    splitDot (p ++ '.' :: t) = p :: splitDot t := by
  induction p with
  | nil =>
    rw [List.nil_append, splitDot]
    obtain ⟨q, qs, hq⟩ := List.exists_cons_of_ne_nil (splitDot_ne_nil t)
    rw [hq, splitDotCons, if_pos rfl]
  | cons c cs ih =>
    rw [List.cons_append, splitDot, ih (fun x hx => h x (by simp [hx]))]
    obtain ⟨q, qs, hq⟩ := List.exists_cons_of_ne_nil (splitDot_ne_nil t)
    rw [splitDotCons, if_neg (h c (by simp))]

theorem splitDot_dotJoin (parts : List (List Char)) (hne : parts ≠ [])
    (h : ∀ p ∈ parts, ∀ c ∈ p, c ≠ '.') :
    splitDot (dotJoin parts) = parts := by
  induction parts with
  | nil => exact absurd rfl hne
  | cons p ps ih =>
    cases ps with
    | nil =>
      rw [dotJoin]
      exact splitDot_no_dot p (h p (by simp))
    | cons q qs =>
      show splitDot (p ++ '.' :: dotJoin (q :: qs)) = p :: q :: qs
      rw [splitDot_append_dot p _ (h p (by simp))]
      rw [ih (List.cons_ne_nil q qs) (fun r hr c hc => h r (by simp [hr]) c hc)]

theorem dotJoin_cons_flat (p : List Char) (ps : List (List Char)) :
    dotJoin (p :: ps) = p ++ ps.flatMap (fun q => '.' :: q) := by
  induction ps generalizing p with
  | nil => simp [dotJoin]
  | cons q qs ih =>
    show p ++ '.' :: dotJoin (q :: qs) = _
    rw [ih]
    simp [List.flatMap_cons]

/-! ## JS 32-bit helpers under the arc bounds -/

theorem lor128_facts : ∀ a : Nat, a < 128 →
    (128 ≤ a ||| 128 ∧ (a ||| 128) &&& 127 = a) := by
  decide

theorem jsAnd7f_lt (x : Int) : jsAnd7f x < 128 := by
  rw [jsAnd7f]
  have h1 : (0 : Int) ≤ x.emod 4294967296 := Int.emod_nonneg _ (by norm_num)
  have h2 : x.emod 4294967296 % 128 < 128 := Int.emod_lt_of_pos _ (by norm_num)
  have h3 : (0 : Int) ≤ x.emod 4294967296 % 128 := Int.emod_nonneg _ (by norm_num)
  omega

theorem emod32_of_bound (v : Int) (h0 : 0 ≤ v) (h31 : v < 2147483648) :
    v.emod 4294967296 = v :=
  Int.emod_eq_of_lt h0 (by omega)

theorem jsAnd7f_of_bound (v : Int) (h0 : 0 ≤ v) (h31 : v < 2147483648) :
    ((jsAnd7f v : Nat) : Int) = v % 128 := by
  rw [jsAnd7f, emod32_of_bound v h0 h31]
  exact Int.toNat_of_nonneg (Int.emod_nonneg _ (by norm_num))

theorem jsShrU32_of_bound (v : Int) (h0 : 0 ≤ v) (h31 : v < 2147483648) :
    jsShrU32 v 7 = v / 128 := by
  rw [jsShrU32, emod32_of_bound v h0 h31]
  norm_num

theorem jsShl32_of_bound (x : Int) (h0 : 0 ≤ x) (h : x * 128 < 2147483648) :
    jsShl32 x 7 = x * 128 := by
  rw [jsShl32, toInt32]
  rw [show (2 : Int) ^ 7 = 128 from by norm_num]
  rw [emod32_of_bound _ (by positivity) (by omega)]
  rw [if_neg (by omega)]

/-! ## The `parseOID` loop undoes `encodeArc` -/

/-- Processing the continuation bytes of one arc from `high = 0` leaves
`high = (v / 128) * 128`. -/
theorem parseOIDLoop_arcHead (fuel : Nat) :
    ∀ v : Int, 0 ≤ v → v < 2147483648 → v.toNat < fuel →
      ∀ (more : List Nat) (oid : List Char),
        parseOIDLoop (arcHeadBytesAux fuel v ++ more) 0 oid =
          parseOIDLoop more (v / 128 * 128) oid := by
  induction fuel with
  | zero => intro v _ _ h; omega
  | succ fuel ih =>
    intro v h0 h31 hfuel more oid
    rw [arcHeadBytesAux]
    split
    · rename_i hgt
      have hw0 : (0 : Int) ≤ jsShrU32 v 7 := by
        rw [jsShrU32_of_bound v h0 h31]
        positivity
      have hwlt : jsShrU32 v 7 < 2147483648 := by
        rw [jsShrU32_of_bound v h0 h31]
        omega
      have hwfuel : (jsShrU32 v 7).toNat < fuel := by
        rw [jsShrU32_of_bound v h0 h31]
        omega
      rw [List.append_assoc, ih (jsShrU32 v 7) hw0 hwlt hwfuel]
      have hlt := jsAnd7f_lt (jsShrU32 v 7)
      rw [List.singleton_append, parseOIDLoop]
      rw [if_pos (lor128_facts _ hlt).1]
      rw [(lor128_facts _ hlt).2]
      rw [jsAnd7f_of_bound _ hw0 hwlt]
      rw [jsShrU32_of_bound v h0 h31]
      rw [show v / 128 / 128 * 128 + v / 128 % 128 = v / 128 from by omega]
      rw [jsShl32_of_bound (v / 128) (by positivity) (by omega)]
    · rename_i hle
      push_neg at hle
      rw [List.nil_append]
      have hz : v / 128 = 0 := by omega
      rw [hz]
      norm_num

/-- One full arc: the loop appends `'.' ++ decimal(v)` and resets `high`. -/
theorem parseOIDLoop_encodeArc (v : Int) (h0 : 0 ≤ v) (h31 : v < 2147483648)
    (more : List Nat) (oid : List Char) :
    parseOIDLoop (encodeArc v ++ more) 0 oid =
      parseOIDLoop more 0 (oid ++ '.' :: decRepr v.toNat) := by
  rw [encodeArc, arcHeadBytes, List.append_assoc]
  rw [parseOIDLoop_arcHead (v.toNat + 1) v h0 h31 (by omega)]
  have hlt := jsAnd7f_lt v
  rw [List.singleton_append, parseOIDLoop]
  rw [if_neg (by omega)]
  rw [jsAnd7f_of_bound v h0 h31]
  rw [show v / 128 * 128 + v % 128 = v from by omega]
  rw [intRepr, if_neg (by omega)]

/-- A concatenation of encoded arcs decodes to the dotted decimal tail. -/
theorem parseOIDLoop_arcs (vs : List Nat) (hvs : ∀ v ∈ vs, v < 2147483648) :
    ∀ oid : List Char,
      parseOIDLoop (vs.flatMap (fun n => encodeArc (n : Int))) 0 oid =
        oid ++ vs.flatMap (fun n => '.' :: decRepr n) := by
  induction vs with
  | nil => intro oid; simp [parseOIDLoop]
  | cons v rest ih =>
    intro oid
    rw [List.flatMap_cons]
    rw [parseOIDLoop_encodeArc (v : Int) (by positivity)
      (by exact_mod_cast hvs v (by simp))]
    rw [ih (fun x hx => hvs x (by simp [hx]))]
    rw [Int.toNat_natCast]
    simp [List.flatMap_cons]

theorem oidArcsBytes_decRepr (l : List Nat) :
    oidArcsBytes (l.map (fun n => decRepr n)) =
      .ok (l.flatMap (fun n => encodeArc (n : Int))) := by
  induction l with
  | nil => rfl
  | cons v rest ih =>
    rw [List.map_cons, oidArcsBytes, mustParseInt_decRepr]
    simp only [bindOk]
    rw [ih]
    simp only [bindOk]
    rw [List.flatMap_cons]

/-- `ASN1.OID` on the dotted rendering of bounded arcs produces the
packed first byte followed by the base-128 arc encodings. -/
theorem oidBytes_eval (a1 a2 : Nat) (rest : List Nat) (h1 : a1 ≤ 2) (h2 : a2 ≤ 39) :
    oidBytes (dotJoin ((a1 :: a2 :: rest).map (fun n => decRepr n))) =
      .ok ((40 * a1 + a2) :: rest.flatMap (fun n => encodeArc (n : Int))) := by
  have hnd : ∀ p ∈ (a1 :: a2 :: rest).map (fun n => decRepr n), ∀ c ∈ p, c ≠ '.' := by
    intro p hp c hc
    obtain ⟨n, _, hn⟩ := List.mem_map.mp hp
    subst hn
    exact decRepr_no_dot n c hc
  have hsplit : splitDot (dotJoin ((a1 :: a2 :: rest).map (fun n => decRepr n))) =
      (a1 :: a2 :: rest).map (fun n => decRepr n) :=
    splitDot_dotJoin _ (by simp) hnd
  rw [oidBytes, hsplit]
  rw [if_neg (by simp)]
  simp only [List.map_cons, List.getD_cons_zero, List.getD_cons_succ, List.drop_succ_cons,
    List.drop_zero]
  rw [mustParseInt_decRepr a1]
  simp only [bindOk]
  rw [mustParseInt_decRepr a2]
  simp only [bindOk]
  rw [oidArcsBytes_decRepr]
  simp only [bindOk]
  have hfb : (((40 * (a1 : Int) + (a2 : Int)).emod 256).toNat) = 40 * a1 + a2 := by
    have hc : 40 * (a1 : Int) + (a2 : Int) = ((40 * a1 + a2 : Nat) : Int) := by
      push_cast
      ring
    rw [hc]
    have h256 : ((40 * a1 + a2 : Nat) : Int).emod 256 = ((40 * a1 + a2 : Nat) : Int) :=
      Int.emod_eq_of_lt (by positivity)
        (by exact_mod_cast (by omega : 40 * a1 + a2 < 256))
    rw [h256, Int.toNat_natCast]
  rw [hfb]

/-- C6 (amended): the OID round trip holds for dotted-decimal strings of
arcs with first arc ≤ 2, second arc ≤ 39, and every later arc below 2^31
(the 40·arc1+arc2 packing of the first byte and the 32-bit JS shifts
bound the faithful range). -/
theorem oid_roundtrip (a1 a2 : Nat) (rest : List Nat)
    (h1 : a1 ≤ 2) (h2 : a2 ≤ 39) (hrest : ∀ v ∈ rest, v < 2147483648) :
    ∃ bytes, oidBytes (dotJoin ((a1 :: a2 :: rest).map (fun n => decRepr n))) = .ok bytes ∧
      parseOID bytes = .ok (dotJoin ((a1 :: a2 :: rest).map (fun n => decRepr n))) := by
  refine ⟨_, oidBytes_eval a1 a2 rest h1 h2, ?_⟩
  rw [parseOID, if_neg (by simp)]
  simp only [List.getD_cons_zero, List.drop_succ_cons, List.drop_zero]
  rw [show (40 * a1 + a2) / 40 = a1 from by omega]
  rw [show (40 * a1 + a2) % 40 = a2 from by omega]
  rw [parseOIDLoop_arcs rest hrest]
  simp only [List.map_cons]
  rw [dotJoin_cons_flat]
  simp [List.flatMap_map, Function.comp, List.append_assoc, List.flatMap_cons]

/-- C6 counterexample: the dotted string "0.40" (arcs 0 and 40, both
non-negative integers) does not round trip — the first byte packs
40·0+40 = 40, which decodes as "1.0". -/
theorem oid_roundtrip_counterexample :
    dotJoin (([0, 40].map (fun n => decRepr n))) = "0.40".data ∧
      (oidBytes "0.40".data).bind parseOID = .ok "1.0".data ∧
      "1.0".data ≠ "0.40".data := by
  refine ⟨rfl, rfl, by decide⟩

/-- C6 witness: the RSA OID 1.2.840.113549 round trips. -/
theorem oid_roundtrip_witness :
    ∃ bytes, oidBytes (dotJoin (([1, 2, 840, 113549].map (fun n => decRepr n)))) =
        .ok bytes ∧
      parseOID bytes = .ok (dotJoin (([1, 2, 840, 113549].map (fun n => decRepr n)))) :=
  oid_roundtrip 1 2 [840, 113549] (by norm_num) (by norm_num) (by decide)

/-! ## C2: the sequence walk of `validate` -/

theorem drop_eq_nil_of_getElem_none {l : List ASN1} {j : Nat} (h : l[j]? = none) :
    l.drop j = [] := by
  rw [List.drop_eq_nil_iff]
  exact List.getElem?_eq_none_iff.mp h

theorem drop_eq_cons_of_getElem_some {l : List ASN1} {j : Nat} {v : ASN1}
    (h : l[j]? = some v) : l.drop j = v :: l.drop (j + 1) := by
  have hj : j < l.length := by
    by_contra hc
    rw [List.getElem?_eq_none (by omega)] at h
    cases h
  rw [List.drop_eq_getElem_cons hj]
  rw [List.getElem?_eq_getElem hj] at h
  injection h with h
  rw [h]

/-- The `i`/`j` loop of `validate` is exactly the two-cursor lock-step
walk of the specification, with the `j` cursor as a drop count. -/
theorem validateChildren_eq_lockStepSpec (tvs : List Template) :
    ∀ (values : List ASN1) (j : Nat) (caps : Captures),
      validateChildren values tvs j caps = lockStepSpec (values.drop j) tvs caps := by
  induction tvs with
  | nil =>
    intro values j caps
    rw [validateChildren, lockStepSpec]
  | cons tv rest ih =>
    intro values j caps
    rw [validateChildren]
    cases hvj : values[j]? with
    | none =>
      simp only [hvj]
      rw [drop_eq_nil_of_getElem_none hvj, lockStepSpec]
      split
      · rw [ih values j caps, drop_eq_nil_of_getElem_none hvj]
      · rfl
    | some v =>
      simp only [hvj]
      rw [drop_eq_cons_of_getElem_some hvj, lockStepSpec]
      cases hval : validate v tv caps with
      | error e => rfl
      | ok p =>
        obtain ⟨err, caps'⟩ := p
        simp only [bindOk]
        cases err with
        | none =>
          show validateChildren values rest (j + 1) caps' =
            lockStepSpec (List.drop (j + 1) values) rest caps'
          exact ih values (j + 1) caps'
        | some e =>
          show (if tv.optional = true then validateChildren values rest j caps'
              else .ok (some e, caps')) =
            (if tv.optional = true then
              lockStepSpec (v :: List.drop (j + 1) values) rest caps'
            else .ok (some e, caps'))
          split
          · rw [ih values j caps', drop_eq_cons_of_getElem_some hvj]
          · rfl

/-- C2: sequence template matching.  First conjunct: when the template
value is a sequence and the class and tag checks pass, a non-compound
node makes `validate` fail (the thrown `mustCompound` error).  Second
conjunct: the child loop of `validate` equals the lock-step two-cursor
walk described by the specification (`lockStepSpec`), started at child
cursor `j` — in particular at `j = 0` on the compound node's children. -/
theorem validate_sequence_lockstep :
    (∀ (a : ASN1) (caps : Captures) (tname : String) (ttag : TagField) (topt : Bool)
      (tcap : Option String) (tvs : List Template),
      (match ttag with | .one t => [t] | .many l => l).contains a.tag = true →
      a.isCompound = false →
      validate a (.mk tname a.cls ttag topt tcap (.seq tvs)) caps =
        .error (.validationErr (tname ++ " need compound ASN1 value"))) ∧
    (∀ (values : List ASN1) (tvs : List Template) (j : Nat) (caps : Captures),
      validateChildren values tvs j caps = lockStepSpec (values.drop j) tvs caps) := by
  constructor
  · intro a caps tname ttag topt tcap tvs htag hcomp
    have hmc : mustCompound a (tname ++ " need compound ASN1 value") =
        .error (.validationErr (tname ++ " need compound ASN1 value")) := by
      rw [mustCompound, if_pos (by simp [hcomp])]
    cases ttag with
    | one t =>
      have htag2 : [t].contains a.tag = true := htag
      simp at htag2
      cases tcap with
      | none =>
        simp only [validate]
        rw [if_neg (by simp), if_neg (by simp [htag2]), hmc]
        rfl
      | some k =>
        simp only [validate]
        rw [if_neg (by simp), if_neg (by simp [htag2]), hmc]
        rfl
    | many l =>
      have htag2 : l.contains a.tag = true := htag
      simp at htag2
      cases tcap with
      | none =>
        simp only [validate]
        rw [if_neg (by simp), if_neg (by simp [htag2]), hmc]
        rfl
      | some k =>
        simp only [validate]
        rw [if_neg (by simp), if_neg (by simp [htag2]), hmc]
        rfl
  · exact fun values tvs j caps => validateChildren_eq_lockStepSpec tvs values j caps

/-- C2 witness: both conjuncts at concrete inputs — a primitive INTEGER
node against a SEQUENCE-valued template fails the compound requirement,
and the loop/lock-step equivalence instantiated on a concrete child list
(one child, a required then an optional template). -/
theorem validate_sequence_lockstep_witness :
    (validate (mkASN1 0 2 [1] false)
        (.mk "T" (mkASN1 0 2 [1] false).cls (.one 2) false none (.seq [])) [] =
      .error (.validationErr ("T need compound ASN1 value"))) ∧
    (validateChildren [mkASN1 0 2 [1] false]
        [.mk "A" 0 (.one 2) false none .nothing,
         .mk "B" 0 (.one 4) true none .nothing] 0 [] =
      lockStepSpec ([mkASN1 0 2 [1] false].drop 0)
        [.mk "A" 0 (.one 2) false none .nothing,
         .mk "B" 0 (.one 4) true none .nothing] []) :=
  ⟨validate_sequence_lockstep.1 (mkASN1 0 2 [1] false) [] "T" (.one 2) false none []
      (by rfl) (by rfl),
   validate_sequence_lockstep.2 [mkASN1 0 2 [1] false]
      [.mk "A" 0 (.one 2) false none .nothing,
       .mk "B" 0 (.one 4) true none .nothing] 0 []⟩

end ASN1Spec
